import Mathlib

/-! voproxyd: VISCA-over-IP protocol engine and address manager

A shallow embedding of `src/visca.c` and `src/address_manager.c`.

* Bytes are natural numbers below 256, buffers are lists of bytes.
* `size_t` arithmetic is taken modulo `2 ^ 64`, `int` arithmetic is wrapped to
  32-bit two's complement.
* `log` and `print_buffer` only print and are left out.
* The calls into the actuator (`bridge_*`) are recorded, in order, as a list of
  `bridge_call` values.
* `ntohs`, `htons`, `ntohl`, `htonl` depend on the byte order of the host, which
  is a parameter of every definition that touches the header.
-/

namespace Voproxyd

/-! ## Byte order -/

/-- Byte order of the machine the daemon runs on. -/
inductive Endian where
  | little
  | big
deriving DecidableEq

/-- Swap the two bytes of a 16-bit value. -/
def bswap16 (v : Nat) : Nat :=
  (v % 256) * 256 + (v / 256) % 256

/-- Reverse the four bytes of a 32-bit value. -/
def bswap32 (v : Nat) : Nat :=
  (v % 256) * 16777216 + (v / 256 % 256) * 65536 + (v / 65536 % 256) * 256
    + v / 16777216 % 256

/-- The libc `ntohs`: network (big-endian) to host order on a `uint16_t`. -/
def ntohs (e : Endian) (v : Nat) : Nat :=
  match e with
  | Endian.little => bswap16 v
  | Endian.big => v % 65536

/-- The libc `htons`: host to network order on a `uint16_t`. -/
def htons (e : Endian) (v : Nat) : Nat :=
  match e with
  | Endian.little => bswap16 v
  | Endian.big => v % 65536

/-- The libc `ntohl`: network to host order on a `uint32_t`. -/
def ntohl (e : Endian) (v : Nat) : Nat :=
  match e with
  | Endian.little => bswap32 v
  | Endian.big => v % 4294967296

/-- The libc `htonl`: host to network order on a `uint32_t`. -/
def htonl (e : Endian) (v : Nat) : Nat :=
  match e with
  | Endian.little => bswap32 v
  | Endian.big => v % 4294967296

/-- Value of a `uint16_t` object whose two bytes in memory are `b0 b1`. -/
def load16 (e : Endian) (b0 b1 : Nat) : Nat :=
  match e with
  | Endian.little => b0 + 256 * b1
  | Endian.big => 256 * b0 + b1

/-- Value of a `uint32_t` object whose four bytes in memory are `b0 b1 b2 b3`. -/
def load32 (e : Endian) (b0 b1 b2 b3 : Nat) : Nat :=
  match e with
  | Endian.little => b0 + 256 * b1 + 65536 * b2 + 16777216 * b3
  | Endian.big => 16777216 * b0 + 65536 * b1 + 256 * b2 + b3

/-- The two bytes a `uint16_t` object occupies in memory. -/
def store16 (e : Endian) (v : Nat) : List Nat :=
  match e with
  | Endian.little => [v % 256, v / 256 % 256]
  | Endian.big => [v / 256 % 256, v % 256]

/-- The four bytes a `uint32_t` object occupies in memory. -/
def store32 (e : Endian) (v : Nat) : List Nat :=
  match e with
  | Endian.little => [v % 256, v / 256 % 256, v / 65536 % 256, v / 16777216 % 256]
  | Endian.big => [v / 16777216 % 256, v / 65536 % 256, v / 256 % 256, v % 256]

/-! ## Buffers -/

/-- Byte `i` of a buffer, as `buffer[i]` reads it. A read past the end of the
list (outside the object, undefined in C) yields 0. -/
def peek (buffer : List Nat) (i : Nat) : Nat :=
  buffer.getD i 0

/-- Store `bytes` at the start of `buffer`; the bytes behind them are kept. -/
def overlay (buffer bytes : List Nat) : List Nat :=
  bytes ++ buffer.drop bytes.length

/-- The store `buffer[i] = v`; the other bytes are kept. -/
def poke (buffer : List Nat) (i v : Nat) : List Nat :=
  buffer.take i ++ [v] ++ buffer.drop (i + 1)

/-- The libc `memcpy (dest, src, n)`. -/
def memcpy (dest src : List Nat) (n : Nat) : List Nat :=
  overlay dest (src.take n)

/-! ## The envelope header (`struct visca_header`, packed, 8 bytes) -/

/-- The three fields of `struct visca_header`. -/
structure visca_header where
  payload_type : Nat
  payload_length : Nat
  seq_number : Nat
deriving DecidableEq

/-- Length of the header on the wire (`VOIP_HEADER_LENGTH`, fixed to 8 by the
`_Static_assert` on `sizeof(struct visca_header)`). -/
def VOIP_HEADER_LENGTH : Nat := 8

def visca_header_convert_endianness_ntoh (e : Endian) (header : visca_header) : visca_header :=
  visca_header.mk (ntohs e header.payload_type) (ntohs e header.payload_length)
    (ntohl e header.seq_number)

def visca_header_convert_endianness_hton (e : Endian) (header : visca_header) : visca_header :=
  visca_header.mk (htons e header.payload_type) (htons e header.payload_length)
    (htonl e header.seq_number)

/-- The header object seen through the cast `(struct visca_header*)message`. -/
def header_at (e : Endian) (message : List Nat) : visca_header :=
  visca_header.mk (load16 e (peek message 0) (peek message 1))
    (load16 e (peek message 2) (peek message 3))
    (load32 e (peek message 4) (peek message 5) (peek message 6) (peek message 7))

/-- The 8 bytes of a header object in memory. -/
def header_bytes (e : Endian) (header : visca_header) : List Nat :=
  store16 e header.payload_type ++ store16 e header.payload_length
    ++ store32 e header.seq_number

/-! ## Reply composers -/

def compose_ack (buffer : List Nat) : List Nat × Nat :=
  (overlay buffer [0x90, 0x40, 0xff], 3)

def compose_completition (buffer : List Nat) (data : List Nat) (data_len : Nat) :
    List Nat × Nat :=
  (overlay buffer ([0x90, 0x50] ++ (List.range data_len).map (peek data) ++ [0xff]),
    (3 + data_len) % 2 ^ 64)

def compose_empty_completition (buffer : List Nat) : List Nat × Nat :=
  compose_completition buffer [] 0

/-- Returns the buffer and the length `*n` after the call. -/
def compose_control_reply (e : Endian) (buffer : List Nat) (seq_number : Nat) :
    List Nat × Nat :=
  let header := visca_header_convert_endianness_hton e (visca_header.mk 0x0201 0x01 seq_number)
  let buffer1 := memcpy buffer (header_bytes e header) VOIP_HEADER_LENGTH
  let buffer2 := poke buffer1 VOIP_HEADER_LENGTH 0x01
  (buffer2, VOIP_HEADER_LENGTH + 1)

/-! ## Actuator calls -/

/-- One call into the actuator backend (`bridge.h`), with its arguments. -/
inductive bridge_call where
  | directionals (vert horiz : Int) (pan_speed tilt_speed : Nat)
  | relative_move (speed : Nat) (p t : List Nat)
  | absolute_move (speed : Nat) (p t : List Nat)
  | home
  | reset
  | pan_tilt_limit_set (position : Nat) (p t : List Nat)
  | pan_tilt_limit_clear (position : Nat)
  | ramp_curve (p : Nat)
  | slow_mode (p : Nat)
deriving DecidableEq

/-! ## Pan-tilt-drive handlers

Each handler returns the actuator calls it makes, in order. `payload` is the
memory from `message + 8` on, `length` the `size_t` payload length. -/

def ptd_directionals (payload : List Nat) (length : Nat) (_seq_number : Nat) :
    List bridge_call :=
  if length ≠ 9 then []
  else
    let pan_speed := peek payload 4
    let tilt_speed := peek payload 5
    let horiz : Option Int :=
      if peek payload 6 = 0x01 then some (-1)
      else if peek payload 6 = 0x02 then some 1
      else if peek payload 6 = 0x03 then some 0
      else none
    match horiz with
    | none => []
    | some horiz =>
      let vert : Option Int :=
        if peek payload 7 = 0x01 then some 1
        else if peek payload 7 = 0x02 then some (-1)
        else if peek payload 7 = 0x03 then some 0
        else none
      match vert with
      | none => []
      | some vert => [bridge_call.directionals vert horiz pan_speed tilt_speed]

def ptd_abs_rel (payload : List Nat) (length : Nat) (_seq_number : Nat) (rel : Bool) :
    List bridge_call :=
  if length ≠ 16 then []
  else
    let speed := peek payload 4
    if peek payload 5 ≠ 0 then []
    else
      let p := (List.range 5).map (fun i => peek payload (6 + i))
      let t := (List.range 4).map (fun i => peek payload (11 + i))
      if rel then [bridge_call.relative_move speed p t]
      else [bridge_call.absolute_move speed p t]

def ptd_pan_tilt_limit (payload : List Nat) (length : Nat) (_seq_number : Nat) :
    List bridge_call :=
  if length ≠ 16 then []
  else
    let set := peek payload 4
    let position := peek payload 5
    if set = 1 then
      let p := (List.range 5).map (fun i => peek payload (6 + i))
      let t := (List.range 4).map (fun i => peek payload (11 + i))
      [bridge_call.pan_tilt_limit_set position p t]
    else [bridge_call.pan_tilt_limit_clear position]

def ptd_ramp_curve (payload : List Nat) (length : Nat) (_seq_number : Nat) :
    List bridge_call :=
  if length ≠ 6 then []
  else
    let p := peek payload 4
    if p ≠ 1 ∧ p ≠ 2 ∧ p ≠ 3 then []
    else [bridge_call.ramp_curve p]

def ptd_slow_mode (payload : List Nat) (length : Nat) (_seq_number : Nat) :
    List bridge_call :=
  if length ≠ 6 then []
  else
    let p := peek payload 4
    if p ≠ 2 ∧ p ≠ 3 then []
    else [bridge_call.slow_mode p]

def dispatch_pan_tilt_drive (payload : List Nat) (length : Nat) (seq_number : Nat) :
    List bridge_call :=
  if peek payload 3 = 0x01 then ptd_directionals payload length seq_number
  else if peek payload 3 = 0x02 then ptd_abs_rel payload length seq_number false
  else if peek payload 3 = 0x03 then ptd_abs_rel payload length seq_number true
  else if peek payload 3 = 0x04 then [bridge_call.home]
  else if peek payload 3 = 0x05 then [bridge_call.reset]
  else if peek payload 3 = 0x07 then ptd_pan_tilt_limit payload length seq_number
  else if peek payload 3 = 0x31 then ptd_ramp_curve payload length seq_number
  else if peek payload 3 = 0x44 then ptd_slow_mode payload length seq_number
  else []

def handle_visca_command (payload : List Nat) (length : Nat) (seq_number : Nat) :
    List bridge_call :=
  if length < 5 then []
  else if peek payload 0 ≠ 0x81 ∨ peek payload 1 ≠ 0x01 then []
  else if peek payload 2 = 0x06 then dispatch_pan_tilt_drive payload length seq_number
  else []

def handle_visca_inquiry (_payload : List Nat) (_length : Nat) (_seq_number : Nat) :
    List bridge_call := []

def handle_visca_reply (_payload : List Nat) (_length : Nat) (_seq_number : Nat) :
    List bridge_call := []

def handle_visca_device_setting_cmd (_payload : List Nat) (_length : Nat) (_seq_number : Nat) :
    List bridge_call := []

def handle_control_reply (_payload : List Nat) (_length : Nat) (_seq_number : Nat) :
    List bridge_call := []

/-! ## Reply staging and the entry point -/

/-- The file-scope reply staging: `g_response` and `g_response_len`. -/
structure staging where
  g_response : List Nat
  g_response_len : Nat
deriving DecidableEq

/-- The staging of a freshly loaded program: static storage is zeroed.
`n` is `VOIP_MAX_MESSAGE_LENGTH`, which `visca.h` defines. -/
def staging_initial (n : Nat) : staging :=
  staging.mk (List.replicate n 0) 0

/-- Returns the staging after the call; the function calls no actuator. -/
def handle_control_command (e : Endian) (g : staging) (payload : List Nat) (length : Nat)
    (seq_number : Nat) : staging :=
  if peek payload 0 = 0x01 then
    let r := compose_control_reply e g.g_response 0
    staging.mk r.1 r.2
  else if peek payload 0 = 0x0F then
    if length ≠ 2 then g
    else if peek payload 1 = 0x01 ∨ peek payload 1 = 0x02 then
      let r := compose_control_reply e g.g_response seq_number
      staging.mk r.1 r.2
    else g
  else g

/-- Everything one call of `visca_handle_message` leaves behind. -/
structure handled where
  /-- The caller's message buffer: the header is converted in place. -/
  message : List Nat
  /-- The reply staging after the call. -/
  globals : staging
  /-- The caller's `response` buffer. -/
  response : List Nat
  /-- The caller's `*response_len`. -/
  response_len : Nat
  /-- The actuator calls made, in order. -/
  calls : List bridge_call
deriving DecidableEq

/-- The `size_t` difference `a - b`. -/
def size_sub (a b : Nat) : Nat :=
  (a + 2 ^ 64 - b) % 2 ^ 64

def visca_handle_message (e : Endian) (g : staging) (message : List Nat) (length : Nat)
    (response : List Nat) (response_len : Nat) : handled :=
  let header := visca_header_convert_endianness_ntoh e (header_at e message)
  let message1 := overlay message (header_bytes e header)
  let payload := message1.drop 8
  let payload_length := size_sub length 8
  if header.payload_length ≠ size_sub length 8 then
    handled.mk message1 g response response_len []
  else
    let staged (g1 : staging) (calls : List bridge_call) : handled :=
      handled.mk message1 g1 (memcpy response g1.g_response g1.g_response_len)
        g1.g_response_len calls
    if header.payload_type = 0x0100 then
      staged g (handle_visca_command payload payload_length header.seq_number)
    else if header.payload_type = 0x0110 then
      staged g (handle_visca_inquiry payload payload_length header.seq_number)
    else if header.payload_type = 0x0111 then
      staged g (handle_visca_reply payload payload_length header.seq_number)
    else if header.payload_type = 0x0120 then
      staged g (handle_visca_device_setting_cmd payload payload_length header.seq_number)
    else if header.payload_type = 0x0200 then
      staged (handle_control_command e g payload payload_length header.seq_number) []
    else if header.payload_type = 0x0201 then
      staged g (handle_control_reply payload payload_length header.seq_number)
    else
      handled.mk message1 g response response_len []

/-! ## Datagrams as a peer sends them -/

/-- The 8 header bytes on the wire: type, length and sequence number, most
significant byte first. -/
def wire_header (payload_type payload_length seq_number : Nat) : List Nat :=
  [payload_type / 256 % 256, payload_type % 256,
   payload_length / 256 % 256, payload_length % 256,
   seq_number / 16777216 % 256, seq_number / 65536 % 256, seq_number / 256 % 256,
   seq_number % 256]

/-- A control-reply frame as the spec words it: header with type 0x0201,
length 1 and the given sequence number in network byte order, then the payload
byte 0x01. -/
def control_reply_frame (seq_number : Nat) : List Nat :=
  wire_header 0x0201 1 seq_number ++ [0x01]

/-- Horizontal direction of a drive code, in the spec's words: 1 is -1, 2 is +1,
3 is 0. -/
def horizontal_of_code (h : Nat) : Int :=
  if h = 1 then -1 else if h = 2 then 1 else 0

/-- Vertical direction of a drive code, in the spec's words: 1 is +1, 2 is -1,
3 is 0. -/
def vertical_of_code (v : Nat) : Int :=
  if v = 1 then 1 else if v = 2 then -1 else 0

/-! ## Address manager (`src/address_manager.c`) -/

/-- An `int` result wrapped to 32-bit two's complement. -/
def wrap_int (v : Int) : Int :=
  (v + 2147483648) % 4294967296 - 2147483648

/-- The libc `isdigit` on the characters of an address. -/
def isdigit (c : Char) : Bool :=
  decide (48 ≤ c.toNat) && decide (c.toNat ≤ 57)

/-- The `while (*it != 0)` loop of `create_unique_port_from_ip`: `it` is the rest
of the string, `bytes` the array `int bytes[4]`, `idx` the index. A store with
`idx` above 3 lies outside the array (undefined in C) and is dropped here. -/
def scan_address : List Char → List Int → Nat → List Int
  | [], bytes, _ => bytes
  | c :: it, bytes, idx =>
    if isdigit c then
      let times10 := wrap_int (bytes.getD idx 0 * 10)
      scan_address it (bytes.set idx (wrap_int (times10 + ((c.toNat : Int) - 48)))) idx
    else
      scan_address it bytes (idx + 1)

def create_unique_port_from_ip (address : List Char) : Int :=
  let bytes := scan_address address [0, 0, 0, 0] 0
  let byte3 := bytes.getD 2 0
  let byte4 := bytes.getD 3 0
  let first_part := byte3
  let first_part := if byte3 ≥ 100 ∧ byte4 ≥ 100 then Int.tmod byte3 100 else first_part
  let first_part := if byte3 < 10 then wrap_int (byte3 * 10) else first_part
  let offset : Int := if byte4 < 100 then 100 else 1000
  wrap_int (wrap_int (first_part * offset) + byte4)

def CHAR_BIT : Int := 8

def NPORTS : Int := 32768 - 1024

/-- The macro `BITSLOT(b)`: index of the `char` holding bit `b`; the `int`
division truncates towards zero. -/
def BITSLOT (b : Int) : Int :=
  Int.tdiv b CHAR_BIT

/-- The macro `BITNSLOTS(nb)`: number of `char` slots in a set of `nb` bits. -/
def BITNSLOTS (nb : Int) : Int :=
  Int.tdiv (nb + CHAR_BIT - 1) CHAR_BIT

/-- The bit index `port - 1024` that `address_mngr_add_address_by_port` hands to
`BITTEST` and `BITSET`. -/
def port_bit (port : Int) : Int :=
  wrap_int (port - 1024)

/-! ### Addresses and the port rule as the spec words them -/

/-- Value of a run of decimal digits. -/
def run_value (run : List Char) : Nat :=
  run.foldl (fun acc c => acc * 10 + (c.toNat - 48)) 0

/-- The dotted-decimal string made of four digit runs and three dots. -/
def dotted (a b c d : List Char) : List Char :=
  a ++ '.' :: (b ++ '.' :: (c ++ '.' :: d))

/-- The port rule of the spec on the third and fourth octets. -/
def derive_port (b3 b4 : Nat) : Nat :=
  let first := if b3 ≥ 100 ∧ b4 ≥ 100 then b3 % 100 else if b3 < 10 then b3 * 10 else b3
  let offset := if b4 < 100 then 100 else 1000
  first * offset + b4

/-- A digit run that is an IPv4 octet: digits only, value at most 255. -/
def octet (run : List Char) : Prop :=
  (∀ x ∈ run, isdigit x = true) ∧ run_value run ≤ 255

instance (run : List Char) : Decidable (octet run) := by
  unfold octet
  infer_instance

/-! ## The descriptor map (`src/avltree.h`) -/

/-- A pointer to a `struct avl_node_t`; `nil` is the NULL pointer. -/
inductive avl_node_t (α : Type) where
  | nil : avl_node_t α
  | node (key : Int) (data : α) (height : Nat) (left right : avl_node_t α) : avl_node_t α
deriving DecidableEq

/-- The `struct avl_tree_t`. -/
structure avl_tree_t (α : Type) where
  root : avl_node_t α
deriving DecidableEq

/-- Modelled from the spec: `avl_tree_construct`, declared in `avltree.h`, whose
body is not part of the sources read here. The new tree is empty. -/
def avl_tree_construct {α : Type} : avl_tree_t α :=
  avl_tree_t.mk avl_node_t.nil

/-- The member `height` of a subtree, 0 for NULL. -/
def avl_height {α : Type} : avl_node_t α → Nat
  | avl_node_t.nil => 0
  | avl_node_t.node _ _ h _ _ => h

/-- A node over two subtrees, with its `height` member one above the higher
child. -/
def avl_join {α : Type} (l : avl_node_t α) (k : Int) (d : α) (r : avl_node_t α) : avl_node_t α :=
  avl_node_t.node k d (max (avl_height l) (avl_height r) + 1) l r

/-- Modelled from the spec: the rebalancing step of the AVL discipline ("restore
the balance-factor invariant via single or double rotation as needed"), whose
body is not part of the sources read here. The node with key `k` over `l` and
`r` is rotated when one child is more than one level higher than the other. -/
def avl_rebalance {α : Type} (l : avl_node_t α) (k : Int) (d : α) (r : avl_node_t α) :
    avl_node_t α :=
  if avl_height l > avl_height r + 1 then
    match l with
    | avl_node_t.nil => avl_join l k d r
    | avl_node_t.node lk ld _ ll lr =>
      if avl_height ll ≥ avl_height lr then
        avl_join ll lk ld (avl_join lr k d r)
      else
        match lr with
        | avl_node_t.nil => avl_join l k d r
        | avl_node_t.node mk md _ ml mr =>
          avl_join (avl_join ll lk ld ml) mk md (avl_join mr k d r)
  else if avl_height r > avl_height l + 1 then
    match r with
    | avl_node_t.nil => avl_join l k d r
    | avl_node_t.node rk rd _ rl rr =>
      if avl_height rr ≥ avl_height rl then
        avl_join (avl_join l k d rl) rk rd rr
      else
        match rl with
        | avl_node_t.nil => avl_join l k d r
        | avl_node_t.node mk md _ ml mr =>
          avl_join (avl_join l k d ml) mk md (avl_join mr rk rd rr)
  else avl_join l k d r

/-- Modelled from the spec: insertion below a node, for `avl_tree_insert`, whose
body is not part of the sources read here. Classic AVL insertion keyed on the
integer descriptor; a key that is already present leaves the tree as it is
("must not corrupt the tree if misused"). -/
def avl_insert_node {α : Type} : avl_node_t α → Int → α → avl_node_t α
  | avl_node_t.nil, key, data => avl_node_t.node key data 1 avl_node_t.nil avl_node_t.nil
  | avl_node_t.node k d h l r, key, data =>
    if key < k then avl_rebalance (avl_insert_node l key data) k d r
    else if k < key then avl_rebalance l k d (avl_insert_node r key data)
    else avl_node_t.node k d h l r

/-- Modelled from the spec: `avl_tree_insert`, declared in `avltree.h`, whose
body is not part of the sources read here. -/
def avl_tree_insert {α : Type} (tree : avl_tree_t α) (key : Int) (data : α) : avl_tree_t α :=
  avl_tree_t.mk (avl_insert_node tree.root key data)

/-- Modelled from the spec: removal of the leftmost node below the node
`(k, d, l, r)`, for `avl_tree_delete`, whose body is not part of the sources
read here. Returns the removed key and data and the rebalanced rest. -/
def avl_take_min {α : Type} (k : Int) (d : α) (l r : avl_node_t α) : (Int × α) × avl_node_t α :=
  match l with
  | avl_node_t.nil => ((k, d), r)
  | avl_node_t.node lk ld _ ll lr =>
    ((avl_take_min lk ld ll lr).1, avl_rebalance (avl_take_min lk ld ll lr).2 k d r)

/-- Modelled from the spec: deletion below a node, for `avl_tree_delete`, whose
body is not part of the sources read here. Classic AVL deletion: a node with
two children is replaced by its in-order successor, and every node on the way
back up is rebalanced; a key that is absent leaves the tree as it is. -/
def avl_delete_node {α : Type} : avl_node_t α → Int → avl_node_t α
  | avl_node_t.nil, _ => avl_node_t.nil
  | avl_node_t.node k d _ l r, key =>
    if key < k then avl_rebalance (avl_delete_node l key) k d r
    else if k < key then avl_rebalance l k d (avl_delete_node r key)
    else
      match r with
      | avl_node_t.nil => l
      | avl_node_t.node rk rd _ rl rr =>
        match l with
        | avl_node_t.nil => r
        | avl_node_t.node _ _ _ _ _ =>
          avl_rebalance l (avl_take_min rk rd rl rr).1.1 (avl_take_min rk rd rl rr).1.2
            (avl_take_min rk rd rl rr).2

/-- Modelled from the spec: `avl_tree_delete`, declared in `avltree.h`, whose
body is not part of the sources read here. -/
def avl_tree_delete {α : Type} (tree : avl_tree_t α) (key : Int) : avl_tree_t α :=
  avl_tree_t.mk (avl_delete_node tree.root key)

/-- The nodes in the order a depth-first walk leaves them: left subtree, right
subtree, then the node itself. -/
def avl_postorder {α : Type} : avl_node_t α → List (Int × α)
  | avl_node_t.nil => []
  | avl_node_t.node k d _ l r => avl_postorder l ++ avl_postorder r ++ [(k, d)]

/-- The keys of an in-order traversal: left subtree, node, right subtree. -/
def avl_inorder {α : Type} : avl_node_t α → List Int
  | avl_node_t.nil => []
  | avl_node_t.node k _ _ l r => avl_inorder l ++ k :: avl_inorder r

/-- Number of nodes on the longest path from this node down to a leaf, 0 for
NULL. -/
def avl_depth {α : Type} : avl_node_t α → Nat
  | avl_node_t.nil => 0
  | avl_node_t.node _ _ _ l r => max (avl_depth l) (avl_depth r) + 1

/-- Every node has child subtrees whose heights differ by at most one, and its
`height` member is the height of its subtree. -/
def avl_balanced {α : Type} : avl_node_t α → Prop
  | avl_node_t.nil => True
  | avl_node_t.node _ _ h l r =>
    avl_balanced l ∧ avl_balanced r ∧ avl_depth l ≤ avl_depth r + 1 ∧
      avl_depth r ≤ avl_depth l + 1 ∧ h = max (avl_depth l) (avl_depth r) + 1

/-- One call on the tree: an insert or a delete. -/
inductive avl_call (α : Type) where
  | insert (key : Int) (data : α) : avl_call α
  | delete (key : Int) : avl_call α

/-- The tree after a sequence of calls, first call first. -/
def avl_run {α : Type} : avl_tree_t α → List (avl_call α) → avl_tree_t α
  | tree, [] => tree
  | tree, avl_call.insert key data :: calls => avl_run (avl_tree_insert tree key data) calls
  | tree, avl_call.delete key :: calls => avl_run (avl_tree_delete tree key) calls

/-- Modelled from the spec: `avl_tree_destruct`, declared in `avltree.h`, whose
body is not part of the sources read here. It visits every node depth-first,
hands it to the callback, and discards the tree. `s` is the state the callback
works on. -/
def avl_tree_destruct {α σ : Type} (tree : avl_tree_t α) (node_destruct_cb : σ → Int × α → σ)
    (s : σ) : avl_tree_t α × σ :=
  (avl_tree_t.mk avl_node_t.nil, (avl_postorder tree.root).foldl node_destruct_cb s)

/-! ## The registry (`src/address_manager.c`, continued) -/

/-- The macro `BITMASK(b)`. -/
def BITMASK (b : Int) : Nat :=
  1 <<< (Int.tmod b CHAR_BIT).toNat

/-- The `char` at index `i` of a bit set, as its bit pattern 0..255. An index
outside the array (undefined in C) reads 0. -/
def slot_get (a : List Nat) (i : Int) : Nat :=
  if 0 ≤ i then a.getD i.toNat 0 else 0

/-- The store of a `char` at index `i` of a bit set. A store outside the array
(undefined in C) is dropped. -/
def slot_put (a : List Nat) (i : Int) (v : Nat) : List Nat :=
  if 0 ≤ i then a.set i.toNat (v % 256) else a

/-- The macro `BITTEST(a, b)`. -/
def BITTEST (a : List Nat) (b : Int) : Nat :=
  slot_get a (BITSLOT b) &&& BITMASK b

/-- The macro `BITSET(a, b)`; returns the array after the store. -/
def BITSET (a : List Nat) (b : Int) : List Nat :=
  slot_put a (BITSLOT b) (slot_get a (BITSLOT b) ||| BITMASK b)

/-- The member of `struct soap_instance` that the address manager reads; the
structure is declared in a header that is not part of the sources read here. -/
structure soap_instance where
  service_endpoint : List Char
deriving DecidableEq

/-- The registry and the resources it holds: the file-scope `address_map` and
`used_ports_bitset`, the open UDP sockets as (descriptor, port) pairs, the
allocated Endpoints, and the descriptors handed to the worker. -/
structure address_manager where
  address_map : avl_tree_t soap_instance
  used_ports_bitset : List Nat
  sockets : List (Int × Int)
  instances : List soap_instance
  worker_fds : List Int
deriving DecidableEq

def address_mngr_init (m : address_manager) : address_manager :=
  address_manager.mk avl_tree_construct (List.replicate (BITNSLOTS NPORTS).toNat 0) m.sockets
    m.instances m.worker_fds

/-- The operation `address_mngr_add_address_by_port`. `fd` is the descriptor that
`socket_create_udp` returns, `soap_instance_allocate` the allocator (`none` for
NULL); both are consulted only when the port is not in use yet. -/
def address_mngr_add_address_by_port (m : address_manager) (port : Int) (address : List Char)
    (fd : Int) (soap_instance_allocate : List Char → Option soap_instance) : address_manager :=
  if BITTEST m.used_ports_bitset (port_bit port) ≠ 0 then m
  else
    let bits := BITSET m.used_ports_bitset (port_bit port)
    let sockets := m.sockets ++ [(fd, port)]
    match soap_instance_allocate address with
    | none => address_manager.mk m.address_map bits sockets m.instances m.worker_fds
    | some inst =>
      address_manager.mk (avl_tree_insert m.address_map fd inst) bits sockets
        (m.instances ++ [inst]) (m.worker_fds ++ [fd])

def address_mngr_add_address (m : address_manager) (address : List Char) (fd : Int)
    (soap_instance_allocate : List Char → Option soap_instance) : address_manager :=
  address_mngr_add_address_by_port m (create_unique_port_from_ip address) address fd
    soap_instance_allocate

/-- The libc `strstr`: the rest of `haystack` from the first occurrence of
`needle` on, `none` for NULL. -/
def strstr : List Char → List Char → Option (List Char)
  | [], needle => if needle = [] then some [] else none
  | c :: haystack, needle =>
    if needle.isPrefixOf (c :: haystack) then some (c :: haystack) else strstr haystack needle

def find_soap_instance_matching_ip :
    avl_node_t soap_instance → List Char → Option soap_instance
  | avl_node_t.nil, _ => none
  | avl_node_t.node _ data _ left right, ip =>
    match find_soap_instance_matching_ip left ip with
    | some res => some res
    | none =>
      match find_soap_instance_matching_ip right ip with
      | some res => some res
      | none => if (strstr data.service_endpoint ip).isSome then some data else none

def address_mngr_find_soap_instance_matching_ip (address_map : avl_tree_t soap_instance)
    (ip : List Char) : Option soap_instance :=
  match address_map.root with
  | avl_node_t.nil => none
  | avl_node_t.node key data height left right =>
    find_soap_instance_matching_ip (avl_node_t.node key data height left right) ip

/-- The callback `node_destruction_cb`: closes the descriptor `node->key` and
releases the Endpoint `node->data`. -/
def node_destruction_cb (m : address_manager) (node : Int × soap_instance) : address_manager :=
  address_manager.mk m.address_map m.used_ports_bitset
    (m.sockets.filter (fun s => decide (s.1 ≠ node.1))) (m.instances.erase node.2) m.worker_fds

def address_mngr_destruct (m : address_manager) : address_manager :=
  address_manager.mk (avl_tree_destruct m.address_map node_destruction_cb m).1
    (avl_tree_destruct m.address_map node_destruction_cb m).2.used_ports_bitset
    (avl_tree_destruct m.address_map node_destruction_cb m).2.sockets
    (avl_tree_destruct m.address_map node_destruction_cb m).2.instances
    (avl_tree_destruct m.address_map node_destruction_cb m).2.worker_fds

/-! ### The registry as the spec words it -/

/-- A port that has a bit in the port table. -/
def port_in_table (port : Int) : Prop :=
  1024 ≤ port ∧ port < 1024 + NPORTS

instance (port : Int) : Decidable (port_in_table port) := by
  unfold port_in_table
  infer_instance

/-- The bit of a port is set in the port table. -/
def port_marked (m : address_manager) (port : Int) : Prop :=
  BITTEST m.used_ports_bitset (port_bit port) ≠ 0

instance (m : address_manager) (port : Int) : Decidable (port_marked m port) := by
  unfold port_marked
  infer_instance

/-- Some Endpoint registered in the map owns the port: its descriptor is a key
of the map and is an open socket bound to the port. -/
def port_owned (m : address_manager) (port : Int) : Prop :=
  ∃ fd ∈ avl_inorder m.address_map.root, (fd, port) ∈ m.sockets

/-- One call on the registry, with what the environment answers during it: the
descriptor of the new socket and the result of the allocation. -/
inductive manager_call where
  | add_address_by_port (port : Int) (address : List Char) (fd : Int)
      (allocated : Option soap_instance) : manager_call
  | add_address (address : List Char) (fd : Int) (allocated : Option soap_instance) :
      manager_call
  | destruct : manager_call

/-- The registry after one call. -/
def manager_step (m : address_manager) : manager_call → address_manager
  | manager_call.add_address_by_port port address fd allocated =>
    address_mngr_add_address_by_port m port address fd (fun _ => allocated)
  | manager_call.add_address address fd allocated =>
    address_mngr_add_address m address fd (fun _ => allocated)
  | manager_call.destruct => address_mngr_destruct m

/-- The registry after a sequence of calls, first call first. -/
def manager_run : address_manager → List manager_call → address_manager
  | m, [] => m
  | m, call :: calls => manager_run (manager_step m call) calls

/-- The calls that are adds, not the teardown. -/
def is_add : manager_call → Bool
  | manager_call.add_address_by_port _ _ _ _ => true
  | manager_call.add_address _ _ _ => true
  | manager_call.destruct => false

/-- The environment plays fair during a sequence of calls: every port asked for
has a bit in the table, every allocation succeeds, and the descriptor of a new
socket is not one that is open at that moment. -/
def calls_fair : address_manager → List manager_call → Prop
  | _, [] => True
  | m, manager_call.destruct :: calls => calls_fair (address_mngr_destruct m) calls
  | m, manager_call.add_address_by_port port address fd allocated :: calls =>
    port_in_table port ∧ allocated.isSome = true ∧ fd ∉ m.sockets.map Prod.fst ∧
      calls_fair (manager_step m (manager_call.add_address_by_port port address fd allocated))
        calls
  | m, manager_call.add_address address fd allocated :: calls =>
    port_in_table (create_unique_port_from_ip address) ∧ allocated.isSome = true ∧
      fd ∉ m.sockets.map Prod.fst ∧
      calls_fair (manager_step m (manager_call.add_address address fd allocated)) calls

instance (m : address_manager) (port : Int) : Decidable (port_owned m port) := by
  unfold port_owned
  infer_instance

/-- Whether the environment plays fair can be checked call by call. -/
def calls_fair_decidable :
    (m : address_manager) → (calls : List manager_call) → Decidable (calls_fair m calls)
  | _, [] => isTrue trivial
  | m, manager_call.destruct :: calls => calls_fair_decidable (address_mngr_destruct m) calls
  | m, manager_call.add_address_by_port port address fd allocated :: calls =>
    have := calls_fair_decidable
      (manager_step m (manager_call.add_address_by_port port address fd allocated)) calls
    by unfold calls_fair; infer_instance
  | m, manager_call.add_address address fd allocated :: calls =>
    have := calls_fair_decidable
      (manager_step m (manager_call.add_address address fd allocated)) calls
    by unfold calls_fair; infer_instance

instance (m : address_manager) (calls : List manager_call) : Decidable (calls_fair m calls) :=
  calls_fair_decidable m calls

/-- The registry of Scenario C after the first add: 192.168.11.7 on port 1107,
socket descriptor 5. -/
def scenario_c_registry : address_manager :=
  address_mngr_add_address (address_mngr_init (address_manager.mk avl_tree_construct [] [] [] []))
    "192.168.11.7".toList 5 (fun a => some (soap_instance.mk a))

/-! ## The dispatcher (`src/worker.c`) -/

def VOPROXYD_MAX_RX_MESSAGE_LENGTH : Nat := 4096

/-- The flag `EPOLLHUP` of `sys/epoll.h`. -/
def EPOLLHUP : Nat := 0x010

/-- The flag `EPOLLRDHUP` of `sys/epoll.h`. -/
def EPOLLRDHUP : Nat := 0x2000

/-- The type tag of a tracked descriptor. -/
inductive fd_type where
  | FDT_TCP_LISTEN
  | FDT_TCP
  | FDT_UDP
deriving DecidableEq

/-- What the next `recvfrom` on the descriptor finds at the head of its receive
queue: a datagram with the address of its sender, or a failure with an errno
other than EAGAIN and EWOULDBLOCK. An empty queue is the would-block case. -/
inductive recv_item where
  | datagram (addr : Nat) (bytes : List Nat)
  | failure (errno : Nat)
deriving DecidableEq

/-- The `struct ap_state` for the descriptor `state->current`, with what the
process has done on it. `σ` is the state of the protocol engine. -/
structure ap_state (σ : Type) where
  /-- The member `close_after_read`. -/
  close_after_read : Bool
  /-- The sender address `state->current_event->addr` of the last receive. -/
  addr : Nat
  /-- The receive queue of the descriptor in the kernel, oldest first. -/
  queue : List recv_item
  /-- The state of the protocol engine. -/
  engine : σ
  /-- The messages handed to `visca_handle_message`, in order. -/
  handled : List (List Nat)
  /-- The replies handed to `socket_send_message_udp`, with their destination. -/
  sent : List (Nat × List Nat)
  /-- Whether `epoll_close_fd` was called on the descriptor. -/
  closed : Bool
  /-- Whether `die` was called. -/
  died : Bool
  /-- Number of connections accepted on a listening descriptor. -/
  accepted : Nat

/-- The function `handle_udp_message`. The engine `visca_handle_message` maps its
state and a message to its next state and the response buffer. -/
def handle_udp_message {σ : Type} (visca_handle_message : σ → List Nat → σ × List Nat)
    (state : ap_state σ) (message : List Nat) : ap_state σ :=
  let response := (visca_handle_message state.engine message).2
  ap_state.mk state.close_after_read state.addr state.queue
    (visca_handle_message state.engine message).1 (state.handled ++ [message])
    (if response.length ≠ 0 then state.sent ++ [(state.addr, response)] else state.sent)
    state.closed state.died state.accepted

/-- The function `epoll_handle_read_queue_udp`; returns the state and whether to
go on reading (the C function returns 1) or not (0). -/
def epoll_handle_read_queue_udp {σ : Type}
    (visca_handle_message : σ → List Nat → σ × List Nat) (state : ap_state σ) :
    ap_state σ × Bool :=
  match state.queue with
  | [] => (state, false)
  | recv_item.failure _ :: rest =>
    (ap_state.mk state.close_after_read state.addr rest state.engine state.handled state.sent
      true true state.accepted, false)
  | recv_item.datagram addr bytes :: rest =>
    let rx_message := bytes.take VOPROXYD_MAX_RX_MESSAGE_LENGTH
    let message_length := rx_message.length
    if message_length = 0 then
      (ap_state.mk state.close_after_read addr rest state.engine state.handled state.sent
        true state.died state.accepted, false)
    else
      let state1 := handle_udp_message visca_handle_message
        (ap_state.mk state.close_after_read addr rest state.engine state.handled state.sent
          state.closed state.died state.accepted) rx_message
      if state1.close_after_read then
        (ap_state.mk false state1.addr state1.queue state1.engine state1.handled state1.sent
          true state1.died state1.accepted, false)
      else (state1, true)

/-- The loop `while (continue_reading)` of `epoll_handle_event`; `none` when the
fuel runs out before the loop ends. -/
def read_queue_loop {σ : Type} (visca_handle_message : σ → List Nat → σ × List Nat) :
    Nat → ap_state σ → Option (ap_state σ)
  | 0, _ => none
  | fuel + 1, state =>
    if (epoll_handle_read_queue_udp visca_handle_message state).2 then
      read_queue_loop visca_handle_message fuel
        (epoll_handle_read_queue_udp visca_handle_message state).1
    else some (epoll_handle_read_queue_udp visca_handle_message state).1

/-- The function `epoll_handle_event` for an event with flags `events` on a
descriptor of type `type`. `epoll_handle_event_errors` is declared in a header
that is not part of the sources read here and is a parameter. -/
def epoll_handle_event {σ : Type} (epoll_handle_event_errors : ap_state σ → Nat → ap_state σ)
    (visca_handle_message : σ → List Nat → σ × List Nat) (fuel : Nat) (state : ap_state σ)
    (events : Nat) (type : fd_type) : Option (ap_state σ) :=
  let state1 := epoll_handle_event_errors state events
  let state2 := ap_state.mk
    (decide ((events &&& EPOLLHUP) ||| (events &&& EPOLLRDHUP) ≠ 0)) state1.addr state1.queue
    state1.engine state1.handled state1.sent state1.closed state1.died state1.accepted
  match type with
  | fd_type.FDT_TCP_LISTEN =>
    some (ap_state.mk state2.close_after_read state2.addr state2.queue state2.engine
      state2.handled state2.sent state2.closed state2.died (state2.accepted + 1))
  | fd_type.FDT_UDP => read_queue_loop visca_handle_message fuel state2
  | fd_type.FDT_TCP =>
    some (ap_state.mk state2.close_after_read state2.addr state2.queue state2.engine
      state2.handled state2.sent state2.closed true state2.accepted)

/-! ### The drain pass as the spec words it -/

/-- The replies due for a queue of datagrams handled in arrival order: one per
datagram for which the engine stages a non-empty reply, to its sender. -/
def replies_due {σ : Type} (visca_handle_message : σ → List Nat → σ × List Nat) :
    σ → List (Nat × List Nat) → List (Nat × List Nat)
  | _, [] => []
  | s, (addr, bytes) :: rest =>
    (if (visca_handle_message s (bytes.take VOPROXYD_MAX_RX_MESSAGE_LENGTH)).2.length ≠ 0 then
        [(addr, (visca_handle_message s (bytes.take VOPROXYD_MAX_RX_MESSAGE_LENGTH)).2)]
      else [])
      ++ replies_due visca_handle_message
          (visca_handle_message s (bytes.take VOPROXYD_MAX_RX_MESSAGE_LENGTH)).1 rest

/-- The receive queue that holds the given datagrams, each with its sender. -/
def queue_of (datagrams : List (Nat × List Nat)) : List recv_item :=
  datagrams.map (fun d => recv_item.datagram d.1 d.2)

/-! ## Payload reads of the control-command handler -/

/-- The payload indices that `handle_control_command` reads, in order: the outer
`switch (payload[0])` reads index 0, and the inner `switch (payload[1])` reads
index 1 once `check_length(2)` has passed. -/
def handle_control_command_reads (payload : List Nat) (length : Nat) : List Nat :=
  if peek payload 0 = 0x01 then [0]
  else if peek payload 0 = 0x0F then
    if length ≠ 2 then [0]
    else [0, 1]
  else [0]

/-! # Theorems -/

/-! ## Byte-order lemmas -/

theorem split16 (v : Nat) : v % 65536 = 256 * (v / 256 % 256) + v % 256 := by omega

theorem split32 (v : Nat) :
    v % 4294967296
      = 16777216 * (v / 16777216 % 256) + 65536 * (v / 65536 % 256) + 256 * (v / 256 % 256)
        + v % 256 := by omega

theorem ntohs_load16 (e : Endian) (b0 b1 : Nat) (h0 : b0 < 256) (h1 : b1 < 256) :
    ntohs e (load16 e b0 b1) = 256 * b0 + b1 := by
  cases e <;> simp only [ntohs, load16, bswap16] <;> omega

theorem ntohl_load32 (e : Endian) (b0 b1 b2 b3 : Nat) (h0 : b0 < 256) (h1 : b1 < 256)
    (h2 : b2 < 256) (h3 : b3 < 256) :
    ntohl e (load32 e b0 b1 b2 b3) = 16777216 * b0 + 65536 * b1 + 256 * b2 + b3 := by
  cases e <;> simp only [ntohl, load32, bswap32] <;> omega

theorem store16_pair (e : Endian) (b0 b1 : Nat) (h0 : b0 < 256) (h1 : b1 < 256) :
    store16 e (load16 e b0 b1) = [b0, b1] := by
  cases e <;> simp only [store16, load16, List.cons.injEq, and_true] <;> omega

theorem store32_quad (e : Endian) (b0 b1 b2 b3 : Nat) (h0 : b0 < 256) (h1 : b1 < 256)
    (h2 : b2 < 256) (h3 : b3 < 256) :
    store32 e (load32 e b0 b1 b2 b3) = [b0, b1, b2, b3] := by
  cases e <;> simp only [store32, load32, List.cons.injEq, and_true] <;> omega

theorem htons_eq_load16 (e : Endian) (v : Nat) :
    htons e v = load16 e (v / 256 % 256) (v % 256) := by
  cases e
  · simp only [htons, load16, bswap16]; omega
  · simp only [htons, load16]; omega

theorem htonl_eq_load32 (e : Endian) (v : Nat) :
    htonl e v = load32 e (v / 16777216 % 256) (v / 65536 % 256) (v / 256 % 256) (v % 256) := by
  cases e
  · simp only [htonl, load32, bswap32]; omega
  · simp only [htonl, load32]; omega

theorem store16_htons (e : Endian) (v : Nat) :
    store16 e (htons e v) = [v / 256 % 256, v % 256] := by
  rw [htons_eq_load16]
  exact store16_pair e _ _ (Nat.mod_lt _ (by norm_num)) (Nat.mod_lt _ (by norm_num))

theorem store32_htonl (e : Endian) (v : Nat) :
    store32 e (htonl e v) = [v / 16777216 % 256, v / 65536 % 256, v / 256 % 256, v % 256] := by
  rw [htonl_eq_load32]
  exact store32_quad e _ _ _ _ (Nat.mod_lt _ (by norm_num)) (Nat.mod_lt _ (by norm_num))
    (Nat.mod_lt _ (by norm_num)) (Nat.mod_lt _ (by norm_num))

theorem peek_lt (buffer : List Nat) (hb : ∀ b ∈ buffer, b < 256) (i : Nat) :
    peek buffer i < 256 := by
  unfold peek
  by_cases hi : i < buffer.length
  · rw [List.getD_eq_getElem _ _ hi]
    exact hb _ (List.getElem_mem _)
  · rw [List.getD_eq_default _ _ (by omega)]
    omega

theorem header_bytes_length (e : Endian) (h : visca_header) : (header_bytes e h).length = 8 := by
  cases e <;> simp [header_bytes, store16, store32]

/-- The header bytes of a composed frame are the wire header, on either host. -/
theorem header_bytes_hton (e : Endian) (t l s : Nat) :
    header_bytes e (visca_header_convert_endianness_hton e (visca_header.mk t l s))
      = wire_header t l s := by
  simp only [header_bytes, visca_header_convert_endianness_hton, store16_htons, store32_htonl,
    wire_header, List.cons_append, List.nil_append]

/-- Decoding a wire header gives back its three fields, on either host. -/
theorem decode_wire (e : Endian) (t l s : Nat) (p : List Nat) :
    visca_header_convert_endianness_ntoh e (header_at e (wire_header t l s ++ p))
      = visca_header.mk (t % 65536) (l % 65536) (s % 4294967296) := by
  simp only [visca_header_convert_endianness_ntoh, header_at, wire_header, peek,
    List.cons_append, List.getD_cons_zero, List.getD_cons_succ]
  rw [ntohs_load16 e _ _ (Nat.mod_lt _ (by norm_num)) (Nat.mod_lt _ (by norm_num)),
    ntohs_load16 e _ _ (Nat.mod_lt _ (by norm_num)) (Nat.mod_lt _ (by norm_num)),
    ntohl_load32 e _ _ _ _ (Nat.mod_lt _ (by norm_num)) (Nat.mod_lt _ (by norm_num))
      (Nat.mod_lt _ (by norm_num)) (Nat.mod_lt _ (by norm_num)),
    ← split16, ← split16, ← split32]

/-- The payload pointer `message + 8` is not touched by the in-place header
conversion. -/
theorem payload_after_conversion (e : Endian) (h : visca_header) (message : List Nat) :
    (overlay message (header_bytes e h)).drop 8 = message.drop 8 := by
  unfold overlay
  rw [List.drop_append_of_le_length (by rw [header_bytes_length]), header_bytes_length,
    List.drop_of_length_le (by rw [header_bytes_length]), List.nil_append]

theorem compose_control_reply_eq (e : Endian) (buffer : List Nat) (s : Nat) :
    compose_control_reply e buffer s = (control_reply_frame s ++ buffer.drop 9, 9) := by
  simp only [compose_control_reply, header_bytes_hton, memcpy, overlay, poke, control_reply_frame,
    VOIP_HEADER_LENGTH, wire_header, List.take, List.length_cons, List.length_nil,
    List.cons_append, List.nil_append, List.drop_succ_cons, List.drop_zero, List.drop_drop,
    List.append_assoc, Prod.mk.injEq]


theorem drop_wire (t l s : Nat) (p : List Nat) : (wire_header t l s ++ p).drop 8 = p := by
  simp [wire_header]

theorem size_sub_header (n : Nat) (h : n < 65536) : size_sub (8 + n) 8 = n := by
  unfold size_sub
  omega

/-- The decoded payload length, read off the wire bytes. -/
theorem decoded_payload_length (e : Endian) (message : List Nat)
    (hbytes : ∀ b ∈ message, b < 256) :
    (visca_header_convert_endianness_ntoh e (header_at e message)).payload_length
      = 256 * peek message 2 + peek message 3 := by
  simp only [visca_header_convert_endianness_ntoh, header_at]
  exact ntohs_load16 e _ _ (peek_lt message hbytes 2) (peek_lt message hbytes 3)

/-- What `visca_handle_message` does with a datagram given by its wire header
and the bytes behind it. -/
theorem visca_handle_message_wire (e : Endian) (g : staging) (t l s : Nat) (p : List Nat)
    (length : Nat) (response : List Nat) (response_len : Nat)
    (ht : t < 65536) (hl : l < 65536) (hs : s < 4294967296) :
    visca_handle_message e g (wire_header t l s ++ p) length response response_len
      = (let message1 := overlay (wire_header t l s ++ p) (header_bytes e (visca_header.mk t l s))
        if l ≠ size_sub length 8 then handled.mk message1 g response response_len []
        else
          let staged (g1 : staging) (calls : List bridge_call) : handled :=
            handled.mk message1 g1 (memcpy response g1.g_response g1.g_response_len)
              g1.g_response_len calls
          if t = 0x0100 then staged g (handle_visca_command p (size_sub length 8) s)
          else if t = 0x0110 then staged g []
          else if t = 0x0111 then staged g []
          else if t = 0x0120 then staged g []
          else if t = 0x0200 then
            staged (handle_control_command e g p (size_sub length 8) s) []
          else if t = 0x0201 then staged g []
          else handled.mk message1 g response response_len []) := by
  simp only [visca_handle_message, decode_wire, payload_after_conversion, drop_wire,
    Nat.mod_eq_of_lt ht, Nat.mod_eq_of_lt hl, Nat.mod_eq_of_lt hs, handle_visca_inquiry,
    handle_visca_reply, handle_visca_device_setting_cmd, handle_control_reply]

/-- C1: a datagram whose decoded payload-length field differs from the `size_t`
value `length - 8` (every datagram shorter than 8 bytes is one) is dropped:
no actuator call is made, the response buffer and the response length are not
written, and the reply staging is left as it was. -/
theorem visca_handle_message_length_mismatch (e : Endian) (g : staging) (message : List Nat)
    (length : Nat) (response : List Nat) (response_len : Nat)
    (hbytes : ∀ b ∈ message, b < 256)
    (h : length < 8 ∨ 256 * peek message 2 + peek message 3 ≠ size_sub length 8) :
    (visca_handle_message e g message length response response_len).calls = [] ∧
    (visca_handle_message e g message length response response_len).response = response ∧
    (visca_handle_message e g message length response response_len).response_len = response_len ∧
    (visca_handle_message e g message length response response_len).globals = g := by
  have hne : (visca_header_convert_endianness_ntoh e (header_at e message)).payload_length
      ≠ size_sub length 8 := by
    rw [decoded_payload_length e message hbytes]
    rcases h with h | h
    · have h2 := peek_lt message hbytes 2
      have h3 := peek_lt message hbytes 3
      unfold size_sub
      omega
    · exact h
  simp only [visca_handle_message, if_pos hne, and_self]

/-- C1 at a 10-byte datagram that declares 9 payload bytes. -/
theorem visca_handle_message_length_mismatch_witness :
    (∀ b ∈ [0x01, 0x00, 0x00, 0x09, 0, 0, 0, 1, 0x81, 0x01], b < 256) ∧
    ((10 : Nat) < 8 ∨ 256 * peek [0x01, 0x00, 0x00, 0x09, 0, 0, 0, 1, 0x81, 0x01] 2
        + peek [0x01, 0x00, 0x00, 0x09, 0, 0, 0, 1, 0x81, 0x01] 3 ≠ size_sub 10 8) ∧
    (visca_handle_message Endian.little (staging_initial 16)
        [0x01, 0x00, 0x00, 0x09, 0, 0, 0, 1, 0x81, 0x01] 10 [7, 7, 7] 3).calls = [] ∧
    (visca_handle_message Endian.little (staging_initial 16)
        [0x01, 0x00, 0x00, 0x09, 0, 0, 0, 1, 0x81, 0x01] 10 [7, 7, 7] 3).response = [7, 7, 7] ∧
    (visca_handle_message Endian.little (staging_initial 16)
        [0x01, 0x00, 0x00, 0x09, 0, 0, 0, 1, 0x81, 0x01] 10 [7, 7, 7] 3).response_len = 3 ∧
    (visca_handle_message Endian.little (staging_initial 16)
        [0x01, 0x00, 0x00, 0x09, 0, 0, 0, 1, 0x81, 0x01] 10 [7, 7, 7] 3).globals
      = staging_initial 16 :=
  ⟨by decide, by decide,
    visca_handle_message_length_mismatch Endian.little (staging_initial 16)
      [0x01, 0x00, 0x00, 0x09, 0, 0, 0, 1, 0x81, 0x01] 10 [7, 7, 7] 3 (by decide) (by decide)⟩

theorem memcpy_frame (response buffer : List Nat) (s : Nat) :
    memcpy response (control_reply_frame s ++ buffer) 9
      = control_reply_frame s ++ response.drop 9 := by
  simp [memcpy, overlay, control_reply_frame, wire_header]

theorem memcpy_zero (response src : List Nat) : memcpy response src 0 = response := by
  simp [memcpy, overlay]

/-- C2: a RESET control command (type 0x0200, first payload byte 0x01, declared
length equal to the payload length) stages exactly the nine bytes
02 01 00 01 00 00 00 00 01, whatever its sequence number and whatever the engine
staged before; the bytes of the response buffer behind them are kept and no
actuator call is made. -/
theorem reset_stages_reply_with_seq_zero (e : Endian) (g : staging) (s : Nat)
    (rest tail response : List Nat) (response_len : Nat)
    (hs : s < 4294967296) (hlen : 1 + rest.length < 65536) :
    (visca_handle_message e g (wire_header 0x0200 (1 + rest.length) s ++ (0x01 :: rest ++ tail))
        (8 + (1 + rest.length)) response response_len).response_len = 9 ∧
    (visca_handle_message e g (wire_header 0x0200 (1 + rest.length) s ++ (0x01 :: rest ++ tail))
        (8 + (1 + rest.length)) response response_len).response
      = [0x02, 0x01, 0x00, 0x01, 0x00, 0x00, 0x00, 0x00, 0x01] ++ response.drop 9 ∧
    (visca_handle_message e g (wire_header 0x0200 (1 + rest.length) s ++ (0x01 :: rest ++ tail))
        (8 + (1 + rest.length)) response response_len).calls = [] := by
  rw [visca_handle_message_wire e g _ _ _ _ _ _ _ (by norm_num) hlen hs]
  simp only [size_sub_header _ hlen, ne_eq, not_true_eq_false, if_false, handle_control_command,
    peek, List.cons_append, List.getD_cons_zero, if_true, compose_control_reply_eq, memcpy_frame]
  simp [control_reply_frame, wire_header]

/-- C2 at Scenario B: type 0x0200, length 1, sequence number 99, payload 01. -/
theorem reset_stages_reply_with_seq_zero_witness :
    (99 : Nat) < 4294967296 ∧ 1 + ([] : List Nat).length < 65536 ∧
    (visca_handle_message Endian.little (staging_initial 16)
        (wire_header 0x0200 (1 + ([] : List Nat).length) 99 ++ (0x01 :: [] ++ []))
        (8 + (1 + ([] : List Nat).length)) [] 0).response_len = 9 ∧
    (visca_handle_message Endian.little (staging_initial 16)
        (wire_header 0x0200 (1 + ([] : List Nat).length) 99 ++ (0x01 :: [] ++ []))
        (8 + (1 + ([] : List Nat).length)) [] 0).response
      = [0x02, 0x01, 0x00, 0x01, 0x00, 0x00, 0x00, 0x00, 0x01] ++ ([] : List Nat).drop 9 ∧
    (visca_handle_message Endian.little (staging_initial 16)
        (wire_header 0x0200 (1 + ([] : List Nat).length) 99 ++ (0x01 :: [] ++ []))
        (8 + (1 + ([] : List Nat).length)) [] 0).calls = [] :=
  ⟨by decide, by decide,
    reset_stages_reply_with_seq_zero Endian.little (staging_initial 16) 99 [] [] [] 0
      (by decide) (by decide)⟩

/-- C3: a type-0x0100 datagram of declared length 9 with payload
81 01 06 01 ps ts h v x calls `bridge_directionals` exactly once, with
(vertical, horizontal, pan speed, tilt speed) = (V v, H h, ps, ts), and nothing
else, when h and v are both in 1..3; it makes no actuator call when h or v is
outside 1..3. -/
theorem directionals_datagram (e : Endian) (g : staging) (s ps ts h v x : Nat)
    (tail response : List Nat) (response_len : Nat) (hs : s < 4294967296) :
    (visca_handle_message e g
        (wire_header 0x0100 9 s ++ ([0x81, 0x01, 0x06, 0x01, ps, ts, h, v, x] ++ tail))
        17 response response_len).calls
      = if (h = 1 ∨ h = 2 ∨ h = 3) ∧ (v = 1 ∨ v = 2 ∨ v = 3) then
          [bridge_call.directionals (vertical_of_code v) (horizontal_of_code h) ps ts]
        else [] := by
  rw [visca_handle_message_wire e g _ _ _ _ _ _ _ (by norm_num) (by norm_num) hs]
  have h17 : size_sub 17 8 = 9 := by decide
  simp only [h17, ne_eq, not_true_eq_false, if_false, if_true, handle_visca_command,
    dispatch_pan_tilt_drive, ptd_directionals, peek, List.cons_append, List.getD_cons_zero,
    List.getD_cons_succ, vertical_of_code, horizontal_of_code]
  by_cases h1 : h = 1 <;> by_cases h2 : h = 2 <;> by_cases h3 : h = 3 <;>
  by_cases v1 : v = 1 <;> by_cases v2 : v = 2 <;> by_cases v3 : v = 3 <;>
  simp_all

/-- C3 at Scenario A: sequence number 1, speeds 5 and 5, h = 1, v = 3 gives one
directional move with vertical 0 and horizontal -1. -/
theorem directionals_datagram_witness :
    (1 : Nat) < 4294967296 ∧
    (visca_handle_message Endian.little (staging_initial 16)
        (wire_header 0x0100 9 1 ++ ([0x81, 0x01, 0x06, 0x01, 5, 5, 0x01, 0x03, 0xff] ++ []))
        17 [] 0).calls
      = [bridge_call.directionals 0 (-1) 5 5] :=
  ⟨by decide,
    directionals_datagram Endian.little (staging_initial 16) 1 5 5 0x01 0x03 0xff [] [] 0
      (by decide)⟩

/-- C4: for every 32-bit sequence number `s`, `compose_control_reply` stores
nine bytes at the start of the buffer and sets the length to 9: 02 01 (type
0x0201), 00 01 (length 1), the four bytes of `s` most significant first, and
01; the rest of the buffer is kept. -/
theorem compose_control_reply_bytes (e : Endian) (buffer : List Nat) (s : Nat)
    (hs : s < 4294967296) :
    compose_control_reply e buffer s
      = ([0x02, 0x01, 0x00, 0x01, s / 16777216, s / 65536 % 256, s / 256 % 256, s % 256, 0x01]
          ++ buffer.drop 9, 9) ∧
    16777216 * (s / 16777216) + 65536 * (s / 65536 % 256) + 256 * (s / 256 % 256) + s % 256
      = s := by
  have htop : s / 16777216 % 256 = s / 16777216 := by omega
  constructor
  · rw [compose_control_reply_eq]
    simp [control_reply_frame, wire_header, htop]
  · omega

/-- C4 at sequence number 0x01020304 on a little-endian host. -/
theorem compose_control_reply_bytes_witness :
    (0x01020304 : Nat) < 4294967296 ∧
    compose_control_reply Endian.little (List.replicate 12 0) 0x01020304
      = ([0x02, 0x01, 0x00, 0x01, 0x01, 0x02, 0x03, 0x04, 0x01, 0, 0, 0], 9) :=
  ⟨by decide,
    (compose_control_reply_bytes Endian.little (List.replicate 12 0) 0x01020304 (by decide)).1⟩

theorem ntohs_htons (e : Endian) (v : Nat) (h : v < 65536) : ntohs e (htons e v) = v := by
  rw [htons_eq_load16, ntohs_load16 e _ _ (Nat.mod_lt _ (by norm_num)) (Nat.mod_lt _ (by norm_num))]
  omega

theorem ntohl_htonl (e : Endian) (v : Nat) (h : v < 4294967296) : ntohl e (htonl e v) = v := by
  rw [htonl_eq_load32, ntohl_load32 e _ _ _ _ (Nat.mod_lt _ (by norm_num))
    (Nat.mod_lt _ (by norm_num)) (Nat.mod_lt _ (by norm_num)) (Nat.mod_lt _ (by norm_num))]
  omega

theorem htons_ntohs (e : Endian) (v : Nat) (h : v < 65536) : htons e (ntohs e v) = v := by
  have := ntohs_htons e v h
  cases e <;> simpa only [ntohs, htons] using this

theorem htonl_ntohl (e : Endian) (v : Nat) (h : v < 4294967296) : htonl e (ntohl e v) = v := by
  have := ntohl_htonl e v h
  cases e <;> simpa only [ntohl, htonl] using this

/-- C5: on every header whose fields fit their widths (16, 16 and 32 bits),
`hton` followed by `ntoh` and `ntoh` followed by `hton` give the header back,
and decoding the 8 bytes that encoding produces returns the same type, length
and sequence number. -/
theorem header_round_trip (e : Endian) (h : visca_header)
    (ht : h.payload_type < 65536) (hl : h.payload_length < 65536)
    (hs : h.seq_number < 4294967296) :
    visca_header_convert_endianness_ntoh e (visca_header_convert_endianness_hton e h) = h ∧
    visca_header_convert_endianness_hton e (visca_header_convert_endianness_ntoh e h) = h ∧
    visca_header_convert_endianness_ntoh e
        (header_at e (header_bytes e (visca_header_convert_endianness_hton e h))) = h := by
  obtain ⟨t, l, s⟩ := h
  simp only at ht hl hs
  refine ⟨?_, ?_, ?_⟩
  · simp only [visca_header_convert_endianness_ntoh, visca_header_convert_endianness_hton,
      ntohs_htons e t ht, ntohs_htons e l hl, ntohl_htonl e s hs]
  · simp only [visca_header_convert_endianness_ntoh, visca_header_convert_endianness_hton,
      htons_ntohs e t ht, htons_ntohs e l hl, htonl_ntohl e s hs]
  · have hd := decode_wire e t l s []
    rw [List.append_nil] at hd
    rw [header_bytes_hton, hd, Nat.mod_eq_of_lt ht, Nat.mod_eq_of_lt hl, Nat.mod_eq_of_lt hs]

/-- C5 at the header of Scenario B on a little-endian host. -/
theorem header_round_trip_witness :
    (visca_header.mk 0x0200 1 99).payload_type < 65536 ∧
    (visca_header.mk 0x0200 1 99).payload_length < 65536 ∧
    (visca_header.mk 0x0200 1 99).seq_number < 4294967296 ∧
    visca_header_convert_endianness_ntoh Endian.little
        (visca_header_convert_endianness_hton Endian.little (visca_header.mk 0x0200 1 99))
      = visca_header.mk 0x0200 1 99 ∧
    visca_header_convert_endianness_hton Endian.little
        (visca_header_convert_endianness_ntoh Endian.little (visca_header.mk 0x0200 1 99))
      = visca_header.mk 0x0200 1 99 ∧
    visca_header_convert_endianness_ntoh Endian.little
        (header_at Endian.little (header_bytes Endian.little
          (visca_header_convert_endianness_hton Endian.little (visca_header.mk 0x0200 1 99))))
      = visca_header.mk 0x0200 1 99 :=
  ⟨by decide, by decide, by decide,
    header_round_trip Endian.little (visca_header.mk 0x0200 1 99) (by decide) (by decide)
      (by decide)⟩

/-- C6: from the freshly initialised engine, a type-0x0200 datagram with
matching declared length and first payload byte 0x0F gets a reply exactly when
its payload is 2 bytes long and the second byte is 0x01 or 0x02; the reply is
then the 9-byte control reply with the received sequence number; otherwise the
staged length is 0 and the response buffer is untouched. No actuator call is
made either way. -/
theorem error_control_command (e : Endian) (n s : Nat) (rest tail response : List Nat)
    (response_len : Nat) (hs : s < 4294967296) (hlen : 1 + rest.length < 65536) :
    ((visca_handle_message e (staging_initial n)
          (wire_header 0x0200 (1 + rest.length) s ++ (0x0F :: rest ++ tail))
          (8 + (1 + rest.length)) response response_len).response_len ≠ 0
      ↔ (0x0F :: rest).length = 2 ∧
          (peek (0x0F :: rest) 1 = 0x01 ∨ peek (0x0F :: rest) 1 = 0x02)) ∧
    ((0x0F :: rest).length = 2 ∧ (peek (0x0F :: rest) 1 = 0x01 ∨ peek (0x0F :: rest) 1 = 0x02) →
      (visca_handle_message e (staging_initial n)
          (wire_header 0x0200 (1 + rest.length) s ++ (0x0F :: rest ++ tail))
          (8 + (1 + rest.length)) response response_len).response_len = 9 ∧
      (visca_handle_message e (staging_initial n)
          (wire_header 0x0200 (1 + rest.length) s ++ (0x0F :: rest ++ tail))
          (8 + (1 + rest.length)) response response_len).response
        = control_reply_frame s ++ response.drop 9) ∧
    (¬ ((0x0F :: rest).length = 2 ∧
          (peek (0x0F :: rest) 1 = 0x01 ∨ peek (0x0F :: rest) 1 = 0x02)) →
      (visca_handle_message e (staging_initial n)
          (wire_header 0x0200 (1 + rest.length) s ++ (0x0F :: rest ++ tail))
          (8 + (1 + rest.length)) response response_len).response_len = 0 ∧
      (visca_handle_message e (staging_initial n)
          (wire_header 0x0200 (1 + rest.length) s ++ (0x0F :: rest ++ tail))
          (8 + (1 + rest.length)) response response_len).response = response) ∧
    (visca_handle_message e (staging_initial n)
        (wire_header 0x0200 (1 + rest.length) s ++ (0x0F :: rest ++ tail))
        (8 + (1 + rest.length)) response response_len).calls = [] := by
  rw [visca_handle_message_wire e _ _ _ _ _ _ _ _ (by norm_num) hlen hs]
  simp only [size_sub_header _ hlen, ne_eq, not_true_eq_false, if_false, if_true,
    handle_control_command, List.cons_append]
  have hp0 : ∀ l : List Nat, peek (0x0F :: l) 0 = 0x0F := fun _ => rfl
  have hp1 : peek (0x0F :: (rest ++ tail)) 1 = peek (rest ++ tail) 0 := rfl
  have hq1 : peek (0x0F :: rest) 1 = peek rest 0 := rfl
  simp only [hp0, hp1, hq1, List.length_cons]
  by_cases hl2 : 1 + rest.length = 2
  · have hr : rest.length = 1 := by omega
    obtain ⟨b, rfl⟩ := List.length_eq_one.mp hr
    have hb : peek ([b] ++ tail) 0 = b := rfl
    have hb1 : peek [b] 0 = b := rfl
    simp only [hb, hb1]
    by_cases hc : b = 1 ∨ b = 2
    · simp [hc, compose_control_reply_eq, memcpy_frame, staging_initial]
    · simp [hc, memcpy_zero, staging_initial]
  · have hl2b : ¬ (rest.length + 1 = 2) := by omega
    simp [hl2, hl2b, memcpy_zero, staging_initial]

/-- C6 at Scenario D: type 0x0200, length 2, sequence number 5, payload 0F 09
stages zero reply bytes. -/
theorem error_control_command_witness :
    (5 : Nat) < 4294967296 ∧ 1 + [0x09].length < 65536 ∧
    ¬ ((0x0F :: [0x09]).length = 2 ∧
        (peek (0x0F :: [0x09]) 1 = 0x01 ∨ peek (0x0F :: [0x09]) 1 = 0x02)) ∧
    (visca_handle_message Endian.little (staging_initial 16)
        (wire_header 0x0200 (1 + [0x09].length) 5 ++ (0x0F :: [0x09] ++ []))
        (8 + (1 + [0x09].length)) [] 0).response_len = 0 ∧
    (visca_handle_message Endian.little (staging_initial 16)
        (wire_header 0x0200 (1 + [0x09].length) 5 ++ (0x0F :: [0x09] ++ []))
        (8 + (1 + [0x09].length)) [] 0).response = [] :=
  ⟨by decide, by decide, by decide,
    (error_control_command Endian.little 16 5 [0x09] [] [] 0 (by decide) (by decide)).2.2.1
      (by decide)⟩

/-- C7, the code at a failing input: after a RESET control command (Scenario B)
has been handled, the directional command of Scenario A, which reaches no
composer call, leaves the caller with a staged reply of nine bytes, the
control reply composed for the earlier datagram. The same datagram handled by
the freshly initialised engine stages zero bytes. -/
theorem stale_reply_after_reset (e : Endian) (n : Nat) :
    (visca_handle_message e
        (visca_handle_message e (staging_initial n) (wire_header 0x0200 1 99 ++ [0x01]) 9
          [] 0).globals
        (wire_header 0x0100 9 1 ++ [0x81, 0x01, 0x06, 0x01, 5, 5, 0x01, 0x03, 0xff]) 17
        [] 0).response_len = 9 ∧
    (visca_handle_message e
        (visca_handle_message e (staging_initial n) (wire_header 0x0200 1 99 ++ [0x01]) 9
          [] 0).globals
        (wire_header 0x0100 9 1 ++ [0x81, 0x01, 0x06, 0x01, 5, 5, 0x01, 0x03, 0xff]) 17
        [] 0).response = [0x02, 0x01, 0x00, 0x01, 0x00, 0x00, 0x00, 0x00, 0x01] ∧
    (visca_handle_message e (staging_initial n)
        (wire_header 0x0100 9 1 ++ [0x81, 0x01, 0x06, 0x01, 5, 5, 0x01, 0x03, 0xff]) 17
        [] 0).response_len = 0 := by
  have h9 : size_sub 9 8 = 1 := by decide
  have h17 : size_sub 17 8 = 9 := by decide
  rw [visca_handle_message_wire e _ 0x0200 1 99 _ _ _ _ (by norm_num) (by norm_num)
      (by norm_num),
    visca_handle_message_wire e _ 0x0100 9 1 _ _ _ _ (by norm_num) (by norm_num) (by norm_num),
    visca_handle_message_wire e _ 0x0100 9 1 _ _ _ _ (by norm_num) (by norm_num) (by norm_num)]
  simp [h9, h17, handle_control_command, peek, compose_control_reply_eq, memcpy_frame,
    staging_initial, control_reply_frame, wire_header, memcpy, overlay]

/-! ## Address manager lemmas -/

theorem wrap_int_of_fits (v : Int) (h0 : 0 ≤ v) (h1 : v < 2147483648) : wrap_int v = v := by
  unfold wrap_int
  omega

theorem isdigit_bounds (c : Char) (h : isdigit c = true) : 48 ≤ c.toNat ∧ c.toNat ≤ 57 := by
  simpa [isdigit] using h

/-- A run of digits only grows the accumulated value. -/
theorem le_foldl_digits (run : List Char) (acc : Nat) :
    acc ≤ run.foldl (fun acc c => acc * 10 + (c.toNat - 48)) acc := by
  induction run generalizing acc with
  | nil => exact Nat.le_refl _
  | cons c run ih =>
    simp only [List.foldl_cons]
    have := ih (acc * 10 + (c.toNat - 48))
    omega

theorem set_own_value (bytes : List Int) (idx : Nat) (h : idx < bytes.length) :
    bytes.set idx (bytes.getD idx 0) = bytes := by
  induction bytes generalizing idx with
  | nil => rfl
  | cons x xs ih =>
    cases idx with
    | zero => rfl
    | succ i =>
      simp only [List.set_cons_succ, List.getD_cons_succ, List.cons.injEq, true_and]
      exact ih i (by simpa using h)

/-- Scanning a run of digits accumulates its value in `bytes[idx]`, as long as
the value fits an `int`. -/
theorem scan_address_run (run it : List Char) (bytes : List Int) (idx acc : Nat)
    (hrun : ∀ c ∈ run, isdigit c = true) (hidx : idx < bytes.length)
    (hacc : bytes.getD idx 0 = (acc : Int))
    (hfit : run.foldl (fun acc c => acc * 10 + (c.toNat - 48)) acc < 2147483648) :
    scan_address (run ++ it) bytes idx
      = scan_address it
          (bytes.set idx ((run.foldl (fun acc c => acc * 10 + (c.toNat - 48)) acc : Nat) : Int))
          idx := by
  induction run generalizing bytes acc with
  | nil =>
    simp only [List.nil_append, List.foldl_nil]
    rw [← hacc, set_own_value bytes idx hidx]
  | cons c run ih =>
    have hc := isdigit_bounds c (hrun c (List.mem_cons_self _ _))
    have hmono := le_foldl_digits run (acc * 10 + (c.toNat - 48))
    simp only [List.foldl_cons] at hfit ⊢
    simp only [List.cons_append, scan_address, hrun c (List.mem_cons_self _ _), if_true, hacc,
      List.append_eq]
    have h10 : wrap_int ((acc : Int) * 10) = (acc : Int) * 10 := by
      apply wrap_int_of_fits <;> omega
    have hstep : wrap_int ((acc : Int) * 10 + ((c.toNat : Int) - 48))
        = ((acc * 10 + (c.toNat - 48) : Nat) : Int) := by
      rw [wrap_int_of_fits] <;> omega
    rw [h10, hstep]
    rw [ih (bytes.set idx ((acc * 10 + (c.toNat - 48) : Nat) : Int)) (acc * 10 + (c.toNat - 48))
      (fun c hc => hrun c (List.mem_cons_of_mem _ hc)) (by rw [List.length_set]; exact hidx)
      (by rw [List.getD_eq_getElem _ _ (by rw [List.length_set]; exact hidx),
            List.getElem_set_self]) hfit,
      List.set_set]

theorem scan_address_dot (it : List Char) (bytes : List Int) (idx : Nat) :
    scan_address ('.' :: it) bytes idx = scan_address it bytes (idx + 1) := by
  have h : isdigit '.' = false := by decide
  simp only [scan_address, h, Bool.false_eq_true, if_false]

/-- The four octets the scan leaves in `bytes` for a dotted-decimal string. -/
theorem scan_address_dotted (a b c d : List Char)
    (ha : ∀ x ∈ a, isdigit x = true) (hb : ∀ x ∈ b, isdigit x = true)
    (hc : ∀ x ∈ c, isdigit x = true) (hd : ∀ x ∈ d, isdigit x = true)
    (fa : run_value a < 2147483648) (fb : run_value b < 2147483648)
    (fc : run_value c < 2147483648) (fd : run_value d < 2147483648) :
    scan_address (dotted a b c d) [0, 0, 0, 0] 0
      = [(run_value a : Int), (run_value b : Int), (run_value c : Int), (run_value d : Int)] := by
  unfold run_value at fa fb fc fd
  unfold dotted
  rw [scan_address_run a _ [0, 0, 0, 0] 0 0 ha (by decide) (by decide) fa, scan_address_dot]
  simp only [List.set_cons_zero]
  rw [scan_address_run b _ _ 1 0 hb (by simp) (by simp) fb, scan_address_dot]
  simp only [List.set_cons_succ, List.set_cons_zero]
  rw [scan_address_run c _ _ 2 0 hc (by simp) (by simp) fc, scan_address_dot]
  simp only [List.set_cons_succ, List.set_cons_zero]
  have hlast := scan_address_run d []
    [(List.foldl (fun acc c => acc * 10 + (c.toNat - 48)) 0 a : Nat),
     (List.foldl (fun acc c => acc * 10 + (c.toNat - 48)) 0 b : Nat),
     (List.foldl (fun acc c => acc * 10 + (c.toNat - 48)) 0 c : Nat), 0] 3 0 hd (by simp)
    (by simp) fd
  rw [List.append_nil] at hlast
  rw [hlast]
  simp only [List.set_cons_succ, List.set_cons_zero, scan_address, run_value]

/-- The port of a dotted-decimal string is the port rule on its third and
fourth octets, as long as no `int` overflows. -/
theorem port_of_dotted (a b c d : List Char)
    (ha : ∀ x ∈ a, isdigit x = true) (hb : ∀ x ∈ b, isdigit x = true)
    (hc : ∀ x ∈ c, isdigit x = true) (hd : ∀ x ∈ d, isdigit x = true)
    (fa : run_value a < 2147483648) (fb : run_value b < 2147483648)
    (fc : run_value c < 2147483648) (fd : run_value d < 2147483648)
    (fp : derive_port (run_value c) (run_value d) < 2147483648) :
    create_unique_port_from_ip (dotted a b c d)
      = (derive_port (run_value c) (run_value d) : Nat) := by
  unfold create_unique_port_from_ip
  rw [scan_address_dotted a b c d ha hb hc hd fa fb fc fd]
  simp only [List.getD_cons_succ, List.getD_cons_zero]
  generalize run_value c = vc at *
  generalize run_value d = vd at *
  unfold derive_port at fp ⊢
  have htm : Int.tmod (vc : Int) 100 = ((vc % 100 : Nat) : Int) := (Int.ofNat_tmod vc 100).symm
  rw [htm]
  by_cases h3 : vc < 10
  · have h3i : (vc : Int) < 10 := by omega
    have h3n : ¬ (vc ≥ 100 ∧ vd ≥ 100) := by omega
    simp only [h3, h3i, h3n, if_true, if_false] at fp ⊢
    rw [wrap_int_of_fits ((vc : Int) * 10) (by omega) (by omega)]
    by_cases h4 : vd < 100
    · have h4i : (vd : Int) < 100 := by omega
      simp only [h4, h4i, if_true] at fp ⊢
      rw [wrap_int_of_fits ((vc : Int) * 10 * 100) (by omega) (by omega),
        wrap_int_of_fits _ (by omega) (by omega)]
      push_cast
      ring
    · have h4i : ¬ ((vd : Int) < 100) := by omega
      simp only [h4, h4i, if_false] at fp ⊢
      rw [wrap_int_of_fits ((vc : Int) * 10 * 1000) (by omega) (by omega),
        wrap_int_of_fits _ (by omega) (by omega)]
      push_cast
      ring
  · have h3i : ¬ ((vc : Int) < 10) := by omega
    simp only [h3, h3i, if_false] at fp ⊢
    by_cases h4 : vd < 100
    · have h4i : (vd : Int) < 100 := by omega
      have hn : ¬ (vc ≥ 100 ∧ vd ≥ 100) := by omega
      have hni : ¬ ((vc : Int) ≥ 100 ∧ (vd : Int) ≥ 100) := by omega
      simp only [h4, h4i, hn, hni, if_true, if_false] at fp ⊢
      rw [wrap_int_of_fits ((vc : Int) * 100) (by omega) (by omega),
        wrap_int_of_fits _ (by omega) (by omega)]
      push_cast
      ring
    · have h4i : ¬ ((vd : Int) < 100) := by omega
      simp only [h4, h4i, if_false] at fp ⊢
      by_cases h5 : vc ≥ 100
      · have hn : vc ≥ 100 ∧ vd ≥ 100 := ⟨h5, by omega⟩
        have hni : (vc : Int) ≥ 100 ∧ (vd : Int) ≥ 100 := by omega
        simp only [hn, hni, and_self, if_true] at fp ⊢
        rw [wrap_int_of_fits (((vc % 100 : Nat) : Int) * 1000) (by omega) (by omega),
          wrap_int_of_fits _ (by omega) (by omega)]
        push_cast
        ring
      · have hn : ¬ (vc ≥ 100 ∧ vd ≥ 100) := by omega
        have hni : ¬ ((vc : Int) ≥ 100 ∧ (vd : Int) ≥ 100) := by omega
        simp only [hn, hni, if_false] at fp ⊢
        rw [wrap_int_of_fits ((vc : Int) * 1000) (by omega) (by omega),
          wrap_int_of_fits _ (by omega) (by omega)]
        push_cast
        ring

/-- C8: for a string of four digit runs separated by three dots,
`create_unique_port_from_ip` returns first * offset + d on the third and fourth
octets c and d (first = c mod 100 when c and d are both at least 100, c * 10
when c is below 10, c otherwise; offset = 100 when d is below 100, else 1000),
provided the octets and the result fit an `int`; the first two octets do not
matter. -/
theorem create_unique_port_from_ip_dotted (a b a2 b2 c d : List Char)
    (ha : ∀ x ∈ a, isdigit x = true) (hb : ∀ x ∈ b, isdigit x = true)
    (ha2 : ∀ x ∈ a2, isdigit x = true) (hb2 : ∀ x ∈ b2, isdigit x = true)
    (hc : ∀ x ∈ c, isdigit x = true) (hd : ∀ x ∈ d, isdigit x = true)
    (fa : run_value a < 2147483648) (fb : run_value b < 2147483648)
    (fa2 : run_value a2 < 2147483648) (fb2 : run_value b2 < 2147483648)
    (fc : run_value c < 2147483648) (fd : run_value d < 2147483648)
    (fp : derive_port (run_value c) (run_value d) < 2147483648) :
    create_unique_port_from_ip (dotted a b c d)
      = ((if run_value c ≥ 100 ∧ run_value d ≥ 100 then run_value c % 100
          else if run_value c < 10 then run_value c * 10 else run_value c)
          * (if run_value d < 100 then 100 else 1000) + run_value d : Nat) ∧
    create_unique_port_from_ip (dotted a2 b2 c d) = create_unique_port_from_ip (dotted a b c d) := by
  rw [port_of_dotted a b c d ha hb hc hd fa fb fc fd fp,
    port_of_dotted a2 b2 c d ha2 hb2 hc hd fa2 fb2 fc fd fp]
  exact ⟨rfl, rfl⟩

/-- C8 at the address 10.0.0.200, whose port is 200 (and 192.168.0.200 has the
same port). -/
theorem create_unique_port_from_ip_dotted_witness :
    (∀ x ∈ "10".toList, isdigit x = true) ∧ (∀ x ∈ "0".toList, isdigit x = true) ∧
    (∀ x ∈ "192".toList, isdigit x = true) ∧ (∀ x ∈ "168".toList, isdigit x = true) ∧
    (∀ x ∈ "0".toList, isdigit x = true) ∧ (∀ x ∈ "200".toList, isdigit x = true) ∧
    run_value "10".toList < 2147483648 ∧ run_value "0".toList < 2147483648 ∧
    run_value "192".toList < 2147483648 ∧ run_value "168".toList < 2147483648 ∧
    run_value "0".toList < 2147483648 ∧ run_value "200".toList < 2147483648 ∧
    derive_port (run_value "0".toList) (run_value "200".toList) < 2147483648 ∧
    dotted "10".toList "0".toList "0".toList "200".toList = "10.0.0.200".toList ∧
    create_unique_port_from_ip "10.0.0.200".toList = 200 :=
  ⟨by decide, by decide, by decide, by decide, by decide, by decide, by decide, by decide,
    by decide, by decide, by decide, by decide, by decide, by decide,
    (create_unique_port_from_ip_dotted "10".toList "0".toList "192".toList "168".toList
      "0".toList "200".toList (by decide) (by decide) (by decide) (by decide) (by decide)
      (by decide) (by decide) (by decide) (by decide) (by decide) (by decide) (by decide)
      (by decide)).1⟩

/-- C9 fails as stated: 192.168.1.0 and 192.168.10.0 differ in the third octet
and get the same port, 1000. -/
theorem distinct_octet_pairs_same_port :
    dotted "192".toList "168".toList "1".toList "0".toList = "192.168.1.0".toList ∧
    dotted "192".toList "168".toList "10".toList "0".toList = "192.168.10.0".toList ∧
    (run_value "1".toList, run_value "0".toList) ≠ (run_value "10".toList, run_value "0".toList) ∧
    create_unique_port_from_ip "192.168.1.0".toList = 1000 ∧
    create_unique_port_from_ip "192.168.10.0".toList = 1000 := by
  decide

/-- The port rule separates the octet pairs whose third octets are 0 or in
10..99. -/
theorem derive_port_injective_plain (c d c2 d2 : Nat) (hd : d ≤ 255) (hd2 : d2 ≤ 255)
    (hc : c = 0 ∨ (10 ≤ c ∧ c ≤ 99)) (hc2 : c2 = 0 ∨ (10 ≤ c2 ∧ c2 ≤ 99))
    (h : derive_port c d = derive_port c2 d2) : c = c2 ∧ d = d2 := by
  unfold derive_port at h
  simp only at h
  split_ifs at h <;> omega

/-- C9 as amended: for two dotted-decimal addresses with octets in 0..255
whose third octets are each 0 or in 10..99, different (third, fourth) octet
pairs give different ports. -/
theorem ports_differ_for_plain_third_octets (a b c d a2 b2 c2 d2 : List Char)
    (ha : octet a) (hb : octet b) (hc : octet c) (hd : octet d)
    (ha2 : octet a2) (hb2 : octet b2) (hc2 : octet c2) (hd2 : octet d2)
    (hp : run_value c = 0 ∨ (10 ≤ run_value c ∧ run_value c ≤ 99))
    (hp2 : run_value c2 = 0 ∨ (10 ≤ run_value c2 ∧ run_value c2 ≤ 99))
    (hne : (run_value c, run_value d) ≠ (run_value c2, run_value d2)) :
    create_unique_port_from_ip (dotted a b c d)
      ≠ create_unique_port_from_ip (dotted a2 b2 c2 d2) := by
  have bound : ∀ x y : Nat, x ≤ 255 → y ≤ 255 → derive_port x y < 2147483648 := by
    intro x y hx hy
    unfold derive_port
    simp only
    split_ifs <;> omega
  rw [port_of_dotted a b c d ha.1 hb.1 hc.1 hd.1 (by have := ha.2; omega) (by have := hb.2; omega)
      (by have := hc.2; omega) (by have := hd.2; omega) (bound _ _ hc.2 hd.2),
    port_of_dotted a2 b2 c2 d2 ha2.1 hb2.1 hc2.1 hd2.1 (by have := ha2.2; omega)
      (by have := hb2.2; omega) (by have := hc2.2; omega) (by have := hd2.2; omega)
      (bound _ _ hc2.2 hd2.2)]
  intro heq
  have heq2 : derive_port (run_value c) (run_value d) = derive_port (run_value c2) (run_value d2) := by
    exact_mod_cast heq
  obtain ⟨h1, h2⟩ := derive_port_injective_plain _ _ _ _ hd.2 hd2.2 hp hp2 heq2
  exact hne (by rw [h1, h2])

/-- C9 as amended, at 192.168.10.7 and 192.168.11.7: ports 1007 and 1107. -/
theorem ports_differ_for_plain_third_octets_witness :
    octet "192".toList ∧ octet "168".toList ∧ octet "10".toList ∧ octet "7".toList ∧
    octet "11".toList ∧
    (run_value "10".toList = 0 ∨ (10 ≤ run_value "10".toList ∧ run_value "10".toList ≤ 99)) ∧
    (run_value "11".toList = 0 ∨ (10 ≤ run_value "11".toList ∧ run_value "11".toList ≤ 99)) ∧
    (run_value "10".toList, run_value "7".toList) ≠ (run_value "11".toList, run_value "7".toList) ∧
    create_unique_port_from_ip (dotted "192".toList "168".toList "10".toList "7".toList)
      ≠ create_unique_port_from_ip (dotted "192".toList "168".toList "11".toList "7".toList) :=
  ⟨by decide, by decide, by decide, by decide, by decide, by decide, by decide, by decide,
    ports_differ_for_plain_third_octets "192".toList "168".toList "10".toList "7".toList
      "192".toList "168".toList "11".toList "7".toList (by decide) (by decide) (by decide)
      (by decide) (by decide) (by decide) (by decide) (by decide) (by decide) (by decide)
      (by decide)⟩

/-- C10, the code at failing inputs: the address 10.0.0.200 gets port 200, below
1024, so the bit index `port - 1024` is -824 and `BITSLOT` of it is -103, in
front of `used_ports_bitset`; the address 10.0.99.255 gets port 99255, and
`BITSLOT` of its bit index is 12278, behind the 3968 slots of the set. -/
theorem derived_port_outside_port_table :
    create_unique_port_from_ip "10.0.0.200".toList = 200 ∧
    ¬ (1024 ≤ create_unique_port_from_ip "10.0.0.200".toList ∧
        create_unique_port_from_ip "10.0.0.200".toList < 1024 + NPORTS) ∧
    port_bit (create_unique_port_from_ip "10.0.0.200".toList) = -824 ∧
    BITSLOT (port_bit (create_unique_port_from_ip "10.0.0.200".toList)) = -103 ∧
    create_unique_port_from_ip "10.0.99.255".toList = 99255 ∧
    BITSLOT (port_bit (create_unique_port_from_ip "10.0.99.255".toList)) = 12278 ∧
    BITNSLOTS NPORTS = 3968 := by
  decide

/-! ## Command dispatch lemmas -/

theorem peek_append_left (p tail : List Nat) (i : Nat) (h : i < p.length) :
    peek (p ++ tail) i = peek p i := by
  unfold peek
  rw [List.getD_eq_getElem _ _ (by rw [List.length_append]; omega), List.getD_eq_getElem _ _ h,
    List.getElem_append_left h]

/-- The bytes `buffer[k] .. buffer[k + n - 1]` copied one by one are the slice
of the buffer, when the buffer is long enough. -/
theorem range_peek_slice (p : List Nat) (k n : Nat) (h : k + n ≤ p.length) :
    (List.range n).map (fun i => peek p (k + i)) = (p.drop k).take n := by
  apply List.ext_getElem
  · simp only [List.length_map, List.length_range, List.length_take, List.length_drop]
    omega
  · intro i h1 h2
    simp only [List.length_map, List.length_range] at h1
    simp only [List.getElem_map, List.getElem_range, List.getElem_take, List.getElem_drop, peek]
    rw [List.getD_eq_getElem _ _ (by omega)]

theorem range_peek_all (d : List Nat) : (List.range d.length).map (peek d) = d := by
  have h := range_peek_slice d 0 d.length (by omega)
  simp only [Nat.zero_add, List.drop_zero, List.take_length] at h
  exact h

/-- The command handlers never look behind the payload: the bytes that follow
the datagram in the receive buffer do not matter. -/
theorem handle_visca_command_tail (p tail : List Nat) (s : Nat) :
    handle_visca_command (p ++ tail) p.length s = handle_visca_command p p.length s := by
  unfold handle_visca_command
  by_cases h5 : p.length < 5
  · simp only [h5, if_true]
  · simp only [h5, if_false]
    rw [peek_append_left p tail 0 (by omega), peek_append_left p tail 1 (by omega),
      peek_append_left p tail 2 (by omega)]
    have h3 := peek_append_left p tail 3 (by omega)
    have h4 := peek_append_left p tail 4 (by omega)
    have hd : ptd_directionals (p ++ tail) p.length s = ptd_directionals p p.length s := by
      unfold ptd_directionals
      by_cases h9 : p.length = 9
      · rw [h4, peek_append_left p tail 5 (by omega), peek_append_left p tail 6 (by omega),
          peek_append_left p tail 7 (by omega)]
      · simp only [ne_eq, h9, not_false_eq_true, if_true]
    have ha : ∀ rel, ptd_abs_rel (p ++ tail) p.length s rel = ptd_abs_rel p p.length s rel := by
      intro rel
      unfold ptd_abs_rel
      by_cases h16 : p.length = 16
      · rw [h4, peek_append_left p tail 5 (by omega)]
        have hp : (List.range 5).map (fun i => peek (p ++ tail) (6 + i))
            = (List.range 5).map (fun i => peek p (6 + i)) := by
          rw [range_peek_slice _ 6 5 (by rw [List.length_append]; omega),
            range_peek_slice p 6 5 (by omega), List.drop_append_of_le_length (by omega),
            List.take_append_of_le_length (by rw [List.length_drop]; omega)]
        have ht : (List.range 4).map (fun i => peek (p ++ tail) (11 + i))
            = (List.range 4).map (fun i => peek p (11 + i)) := by
          rw [range_peek_slice _ 11 4 (by rw [List.length_append]; omega),
            range_peek_slice p 11 4 (by omega), List.drop_append_of_le_length (by omega),
            List.take_append_of_le_length (by rw [List.length_drop]; omega)]
        rw [hp, ht]
      · simp only [ne_eq, h16, not_false_eq_true, if_true]
    have hl : ptd_pan_tilt_limit (p ++ tail) p.length s = ptd_pan_tilt_limit p p.length s := by
      unfold ptd_pan_tilt_limit
      by_cases h16 : p.length = 16
      · rw [h4, peek_append_left p tail 5 (by omega)]
        have hp : (List.range 5).map (fun i => peek (p ++ tail) (6 + i))
            = (List.range 5).map (fun i => peek p (6 + i)) := by
          rw [range_peek_slice _ 6 5 (by rw [List.length_append]; omega),
            range_peek_slice p 6 5 (by omega), List.drop_append_of_le_length (by omega),
            List.take_append_of_le_length (by rw [List.length_drop]; omega)]
        have ht : (List.range 4).map (fun i => peek (p ++ tail) (11 + i))
            = (List.range 4).map (fun i => peek p (11 + i)) := by
          rw [range_peek_slice _ 11 4 (by rw [List.length_append]; omega),
            range_peek_slice p 11 4 (by omega), List.drop_append_of_le_length (by omega),
            List.take_append_of_le_length (by rw [List.length_drop]; omega)]
        rw [hp, ht]
      · simp only [ne_eq, h16, not_false_eq_true, if_true]
    have hr : ptd_ramp_curve (p ++ tail) p.length s = ptd_ramp_curve p p.length s := by
      unfold ptd_ramp_curve
      rw [h4]
    have hsl : ptd_slow_mode (p ++ tail) p.length s = ptd_slow_mode p p.length s := by
      unfold ptd_slow_mode
      rw [h4]
    unfold dispatch_pan_tilt_drive
    rw [h3, hd, ha, ha, hl, hr, hsl]

/-- The actuator calls of a command datagram (type 0x0100, declared length equal
to the payload length) are those of `handle_visca_command` on its payload. -/
theorem command_datagram_calls (e : Endian) (g : staging) (s : Nat) (p tail response : List Nat)
    (response_len : Nat) (hs : s < 4294967296) (hlen : p.length < 65536) :
    (visca_handle_message e g (wire_header 0x0100 p.length s ++ (p ++ tail)) (8 + p.length)
        response response_len).calls
      = handle_visca_command p p.length s := by
  rw [visca_handle_message_wire e g _ _ _ _ _ _ _ (by norm_num) hlen hs]
  simp only [size_sub_header _ hlen, ne_eq, not_true_eq_false, if_false, if_true,
    handle_visca_command_tail]

/-- A payload that starts with four given bytes. -/
theorem payload_starts (p : List Nat) (b0 b1 b2 b3 : Nat) (h : p.take 4 = [b0, b1, b2, b3]) :
    4 ≤ p.length ∧ peek p 0 = b0 ∧ peek p 1 = b1 ∧ peek p 2 = b2 ∧ peek p 3 = b3 := by
  have hp : p = [b0, b1, b2, b3] ++ p.drop 4 := by
    rw [← h, List.take_append_drop]
  have hl : 4 ≤ p.length := by
    have := congrArg List.length h
    simp only [List.length_take, List.length_cons, List.length_nil] at this
    omega
  refine ⟨hl, ?_, ?_, ?_, ?_⟩ <;> rw [hp] <;> rfl

/-- C14: a command datagram whose payload starts 81 01 06 k with k = 02
(absolute) or 03 (relative) reaches the actuator exactly when the payload is 16
bytes long and byte 5 is 0; the single call is then `bridge_absolute_move` for
k = 02 and `bridge_relative_move` for k = 03, with speed byte 4, pan the five
bytes 6..10 and tilt the four bytes 11..14, unmodified and in order. -/
theorem abs_rel_datagram (e : Endian) (g : staging) (s k : Nat) (p tail response : List Nat)
    (response_len : Nat) (hs : s < 4294967296) (hlen : p.length < 65536)
    (hp : p.take 4 = [0x81, 0x01, 0x06, k]) (hk : k = 0x02 ∨ k = 0x03) :
    (visca_handle_message e g (wire_header 0x0100 p.length s ++ (p ++ tail)) (8 + p.length)
        response response_len).calls
      = if p.length = 16 ∧ peek p 5 = 0 then
          [if k = 0x02 then
            bridge_call.absolute_move (peek p 4) ((p.drop 6).take 5) ((p.drop 11).take 4)
          else
            bridge_call.relative_move (peek p 4) ((p.drop 6).take 5) ((p.drop 11).take 4)]
        else [] := by
  rw [command_datagram_calls e g s p tail response response_len hs hlen]
  obtain ⟨h4, h0, h1, h2, h3⟩ := payload_starts p _ _ _ _ hp
  unfold handle_visca_command dispatch_pan_tilt_drive ptd_abs_rel
  rw [h0, h1, h2, h3]
  by_cases h16 : p.length = 16
  · rw [range_peek_slice p 6 5 (by omega), range_peek_slice p 11 4 (by omega)]
    have h5 : ¬ p.length < 5 := by omega
    rcases hk with hk | hk <;> subst hk <;> by_cases hz : peek p 5 = 0 <;> simp [h16, hz]
  · have hn : ¬ (p.length = 16 ∧ peek p 5 = 0) := fun h => h16 h.1
    rcases hk with hk | hk <;> subst hk <;> by_cases h5 : p.length < 5 <;> simp [h16, h5]

/-- C14 at an absolute move with speed 9, pan 01 02 03 04 05 and tilt
06 07 08 09. -/
theorem abs_rel_datagram_witness :
    (7 : Nat) < 4294967296 ∧
    [0x81, 0x01, 0x06, 0x02, 9, 0, 1, 2, 3, 4, 5, 6, 7, 8, 9, 0xff].length < 65536 ∧
    [0x81, 0x01, 0x06, 0x02, 9, 0, 1, 2, 3, 4, 5, 6, 7, 8, 9, 0xff].take 4
      = [0x81, 0x01, 0x06, 0x02] ∧
    ((0x02 : Nat) = 0x02 ∨ (0x02 : Nat) = 0x03) ∧
    (visca_handle_message Endian.little (staging_initial 16)
        (wire_header 0x0100 [0x81, 0x01, 0x06, 0x02, 9, 0, 1, 2, 3, 4, 5, 6, 7, 8, 9, 0xff].length 7
          ++ ([0x81, 0x01, 0x06, 0x02, 9, 0, 1, 2, 3, 4, 5, 6, 7, 8, 9, 0xff] ++ []))
        (8 + [0x81, 0x01, 0x06, 0x02, 9, 0, 1, 2, 3, 4, 5, 6, 7, 8, 9, 0xff].length) [] 0).calls
      = [bridge_call.absolute_move 9 [1, 2, 3, 4, 5] [6, 7, 8, 9]] :=
  ⟨by decide, by decide, by decide, by decide,
    abs_rel_datagram Endian.little (staging_initial 16) 7 0x02
      [0x81, 0x01, 0x06, 0x02, 9, 0, 1, 2, 3, 4, 5, 6, 7, 8, 9, 0xff] [] [] 0
      (by decide) (by decide) (by decide) (by decide)⟩

/-- C15: a command datagram whose payload starts 81 01 06 07 and is 16 bytes
long calls `bridge_pan_tilt_limit_set` once, with position byte 5, pan bytes
6..10 and tilt bytes 11..14, when byte 4 is 1, and `bridge_pan_tilt_limit_clear`
once, with position byte 5, for every other value of byte 4; with any other
payload length it calls neither. -/
theorem pan_tilt_limit_datagram (e : Endian) (g : staging) (s : Nat)
    (p tail response : List Nat) (response_len : Nat) (hs : s < 4294967296)
    (hlen : p.length < 65536) (hp : p.take 4 = [0x81, 0x01, 0x06, 0x07]) :
    (visca_handle_message e g (wire_header 0x0100 p.length s ++ (p ++ tail)) (8 + p.length)
        response response_len).calls
      = if p.length = 16 then
          if peek p 4 = 1 then
            [bridge_call.pan_tilt_limit_set (peek p 5) ((p.drop 6).take 5) ((p.drop 11).take 4)]
          else [bridge_call.pan_tilt_limit_clear (peek p 5)]
        else [] := by
  rw [command_datagram_calls e g s p tail response response_len hs hlen]
  obtain ⟨h4, h0, h1, h2, h3⟩ := payload_starts p _ _ _ _ hp
  unfold handle_visca_command dispatch_pan_tilt_drive ptd_pan_tilt_limit
  rw [h0, h1, h2, h3]
  by_cases h16 : p.length = 16
  · rw [range_peek_slice p 6 5 (by omega), range_peek_slice p 11 4 (by omega)]
    simp [h16]
  · by_cases h5 : p.length < 5 <;> simp [h16, h5]

/-- C15 at a limit-clear datagram with the unexpected set byte 2 and position 1. -/
theorem pan_tilt_limit_datagram_witness :
    (7 : Nat) < 4294967296 ∧
    [0x81, 0x01, 0x06, 0x07, 2, 1, 1, 2, 3, 4, 5, 6, 7, 8, 9, 0xff].length < 65536 ∧
    [0x81, 0x01, 0x06, 0x07, 2, 1, 1, 2, 3, 4, 5, 6, 7, 8, 9, 0xff].take 4
      = [0x81, 0x01, 0x06, 0x07] ∧
    (visca_handle_message Endian.little (staging_initial 16)
        (wire_header 0x0100 [0x81, 0x01, 0x06, 0x07, 2, 1, 1, 2, 3, 4, 5, 6, 7, 8, 9, 0xff].length 7
          ++ ([0x81, 0x01, 0x06, 0x07, 2, 1, 1, 2, 3, 4, 5, 6, 7, 8, 9, 0xff] ++ []))
        (8 + [0x81, 0x01, 0x06, 0x07, 2, 1, 1, 2, 3, 4, 5, 6, 7, 8, 9, 0xff].length) [] 0).calls
      = [bridge_call.pan_tilt_limit_clear 1] :=
  ⟨by decide, by decide, by decide,
    pan_tilt_limit_datagram Endian.little (staging_initial 16) 7
      [0x81, 0x01, 0x06, 0x07, 2, 1, 1, 2, 3, 4, 5, 6, 7, 8, 9, 0xff] [] [] 0
      (by decide) (by decide) (by decide)⟩

/-- C16: a command datagram whose payload starts 81 01 06 31 calls
`bridge_ramp_curve` (once, with byte 4) exactly when the payload is 6 bytes
long and byte 4 is 1, 2 or 3; one whose payload starts 81 01 06 44 calls
`bridge_slow_mode` (once, with byte 4) exactly when the payload is 6 bytes long
and byte 4 is 2 or 3. No other call is made, so the actuator never gets a
value outside these ranges. -/
theorem ramp_curve_slow_mode_datagram (e : Endian) (g : staging) (s k : Nat)
    (p tail response : List Nat) (response_len : Nat) (hs : s < 4294967296)
    (hlen : p.length < 65536) (hp : p.take 4 = [0x81, 0x01, 0x06, k]) :
    (k = 0x31 →
      (visca_handle_message e g (wire_header 0x0100 p.length s ++ (p ++ tail)) (8 + p.length)
          response response_len).calls
        = if p.length = 6 ∧ (peek p 4 = 1 ∨ peek p 4 = 2 ∨ peek p 4 = 3) then
            [bridge_call.ramp_curve (peek p 4)]
          else []) ∧
    (k = 0x44 →
      (visca_handle_message e g (wire_header 0x0100 p.length s ++ (p ++ tail)) (8 + p.length)
          response response_len).calls
        = if p.length = 6 ∧ (peek p 4 = 2 ∨ peek p 4 = 3) then
            [bridge_call.slow_mode (peek p 4)]
          else []) := by
  rw [command_datagram_calls e g s p tail response response_len hs hlen]
  obtain ⟨h4, h0, h1, h2, h3⟩ := payload_starts p _ _ _ _ hp
  unfold handle_visca_command dispatch_pan_tilt_drive ptd_ramp_curve ptd_slow_mode
  rw [h0, h1, h2, h3]
  constructor
  · intro hk
    subst hk
    by_cases h6 : p.length = 6
    · by_cases hv : peek p 4 = 1 ∨ peek p 4 = 2 ∨ peek p 4 = 3
      · have hv2 : ¬ (peek p 4 ≠ 1 ∧ peek p 4 ≠ 2 ∧ peek p 4 ≠ 3) := by omega
        simp [h6, hv, hv2]
      · have hv2 : peek p 4 ≠ 1 ∧ peek p 4 ≠ 2 ∧ peek p 4 ≠ 3 := by omega
        simp [h6, hv, hv2]
    · by_cases h5 : p.length < 5 <;> simp [h6, h5]
  · intro hk
    subst hk
    by_cases h6 : p.length = 6
    · by_cases hv : peek p 4 = 2 ∨ peek p 4 = 3
      · have hv2 : ¬ (peek p 4 ≠ 2 ∧ peek p 4 ≠ 3) := by omega
        simp [h6, hv, hv2]
      · have hv2 : peek p 4 ≠ 2 ∧ peek p 4 ≠ 3 := by omega
        simp [h6, hv, hv2]
    · by_cases h5 : p.length < 5 <;> simp [h6, h5]

/-- C16 at the slow-mode datagram 81 01 06 44 01 ff: the value 1 is refused;
and ramp curve 81 01 06 31 03 ff: the value 3 is passed on. -/
theorem ramp_curve_slow_mode_datagram_witness :
    (7 : Nat) < 4294967296 ∧ [0x81, 0x01, 0x06, 0x44, 1, 0xff].length < 65536 ∧
    [0x81, 0x01, 0x06, 0x44, 1, 0xff].take 4 = [0x81, 0x01, 0x06, 0x44] ∧
    (visca_handle_message Endian.little (staging_initial 16)
        (wire_header 0x0100 [0x81, 0x01, 0x06, 0x44, 1, 0xff].length 7
          ++ ([0x81, 0x01, 0x06, 0x44, 1, 0xff] ++ []))
        (8 + [0x81, 0x01, 0x06, 0x44, 1, 0xff].length) [] 0).calls = [] ∧
    (visca_handle_message Endian.little (staging_initial 16)
        (wire_header 0x0100 [0x81, 0x01, 0x06, 0x31, 3, 0xff].length 7
          ++ ([0x81, 0x01, 0x06, 0x31, 3, 0xff] ++ []))
        (8 + [0x81, 0x01, 0x06, 0x31, 3, 0xff].length) [] 0).calls
      = [bridge_call.ramp_curve 3] :=
  ⟨by decide, by decide, by decide,
    (ramp_curve_slow_mode_datagram Endian.little (staging_initial 16) 7 0x44
      [0x81, 0x01, 0x06, 0x44, 1, 0xff] [] [] 0 (by decide) (by decide) (by decide)).2 rfl,
    (ramp_curve_slow_mode_datagram Endian.little (staging_initial 16) 7 0x31
      [0x81, 0x01, 0x06, 0x31, 3, 0xff] [] [] 0 (by decide) (by decide) (by decide)).1 rfl⟩

/-- C17: a datagram with matching declared length makes no actuator call when
its type is not 0x0100, or when it is 0x0100 and the payload is shorter than 5
bytes, or does not start 81 01, or byte 2 is not 06, or byte 3 is none of 01,
02, 03, 04, 05, 07, 31, 44, or the payload length is not the one the sub-type
asks for (9 for 01, 16 for 02, 03 and 07, 6 for 31 and 44). -/
theorem malformed_command_dropped (e : Endian) (g : staging) (t s : Nat)
    (p tail response : List Nat) (response_len : Nat) (ht : t < 65536)
    (hs : s < 4294967296) (hlen : p.length < 65536)
    (hbad : t ≠ 0x0100 ∨ p.length < 5 ∨ peek p 0 ≠ 0x81 ∨ peek p 1 ≠ 0x01 ∨ peek p 2 ≠ 0x06 ∨
      peek p 3 ∉ [0x01, 0x02, 0x03, 0x04, 0x05, 0x07, 0x31, 0x44] ∨
      (peek p 3 = 0x01 ∧ p.length ≠ 9) ∨
      ((peek p 3 = 0x02 ∨ peek p 3 = 0x03 ∨ peek p 3 = 0x07) ∧ p.length ≠ 16) ∨
      ((peek p 3 = 0x31 ∨ peek p 3 = 0x44) ∧ p.length ≠ 6)) :
    (visca_handle_message e g (wire_header t p.length s ++ (p ++ tail)) (8 + p.length)
        response response_len).calls = [] := by
  by_cases h100 : t = 0x0100
  · subst h100
    rw [command_datagram_calls e g s p tail response response_len hs hlen]
    unfold handle_visca_command dispatch_pan_tilt_drive ptd_directionals ptd_abs_rel
      ptd_pan_tilt_limit ptd_ramp_curve ptd_slow_mode
    simp only [List.mem_cons, List.mem_singleton, List.not_mem_nil, or_false, not_or] at hbad
    rcases hbad with h | h | h | h | h | h | h | h | h
    · exact absurd rfl h
    · simp [h]
    · simp [h]
    · simp [h]
    · simp [h]
    · obtain ⟨n1, n2, n3, n4, n5, n7, n31, n44⟩ := h
      simp [n1, n2, n3, n4, n5, n7, n31, n44]
    · simp [h.1, h.2]
    · rcases h with ⟨h3 | h3 | h3, hl⟩ <;> simp [h3, hl]
    · rcases h with ⟨h3 | h3, hl⟩ <;> simp [h3, hl]
  · rw [visca_handle_message_wire e g _ _ _ _ _ _ _ ht hlen hs]
    simp only [size_sub_header _ hlen, ne_eq, not_true_eq_false, if_false, h100]
    split_ifs <;> rfl

/-- C17 at a directional command that is one byte short (8 payload bytes). -/
theorem malformed_command_dropped_witness :
    (0x0100 : Nat) < 65536 ∧ (1 : Nat) < 4294967296 ∧
    [0x81, 0x01, 0x06, 0x01, 5, 5, 0x01, 0x03].length < 65536 ∧
    (peek [0x81, 0x01, 0x06, 0x01, 5, 5, 0x01, 0x03] 3 = 0x01 ∧
      [0x81, 0x01, 0x06, 0x01, 5, 5, 0x01, 0x03].length ≠ 9) ∧
    (visca_handle_message Endian.little (staging_initial 16)
        (wire_header 0x0100 [0x81, 0x01, 0x06, 0x01, 5, 5, 0x01, 0x03].length 1
          ++ ([0x81, 0x01, 0x06, 0x01, 5, 5, 0x01, 0x03] ++ []))
        (8 + [0x81, 0x01, 0x06, 0x01, 5, 5, 0x01, 0x03].length) [] 0).calls = [] :=
  ⟨by decide, by decide, by decide, by decide,
    malformed_command_dropped Endian.little (staging_initial 16) 0x0100 1
      [0x81, 0x01, 0x06, 0x01, 5, 5, 0x01, 0x03] [] [] 0 (by decide) (by decide) (by decide)
      (Or.inr (Or.inr (Or.inr (Or.inr (Or.inr (Or.inr (Or.inl (by decide))))))))⟩

/-- C18: `compose_ack` stores 90 40 FF and sets the length to 3;
`compose_completition` on `k` data bytes stores 90 50, the data bytes in order,
then FF, and sets the length to `k + 3`; `compose_empty_completition` gives what
`compose_completition` gives on no data, 90 50 FF with length 3. The bytes of
the buffer behind the frame are kept. -/
theorem ack_and_completition_frames (buffer d : List Nat) (hd : d.length + 3 < 2 ^ 64) :
    compose_ack buffer = ([0x90, 0x40, 0xff] ++ buffer.drop 3, 3) ∧
    compose_completition buffer d d.length
      = ([0x90, 0x50] ++ d ++ [0xff] ++ buffer.drop (d.length + 3), d.length + 3) ∧
    compose_empty_completition buffer = compose_completition buffer [] 0 ∧
    compose_empty_completition buffer = ([0x90, 0x50, 0xff] ++ buffer.drop 3, 3) := by
  refine ⟨rfl, ?_, rfl, rfl⟩
  unfold compose_completition overlay
  rw [range_peek_all, Nat.mod_eq_of_lt (by omega)]
  simp only [List.length_append, List.length_cons, List.length_nil, Prod.mk.injEq]
  constructor
  · congr 2
    omega
  · omega

/-- C18 at two data bytes in a buffer of seven. -/
theorem ack_and_completition_frames_witness :
    [1, 2].length + 3 < 2 ^ 64 ∧
    compose_ack [0, 0, 0, 0, 0, 0, 0] = ([0x90, 0x40, 0xff, 0, 0, 0, 0], 3) ∧
    compose_completition [0, 0, 0, 0, 0, 0, 0] [1, 2] [1, 2].length
      = ([0x90, 0x50, 1, 2, 0xff, 0, 0], 5) ∧
    compose_empty_completition [0, 0, 0, 0, 0, 0, 0] = ([0x90, 0x50, 0xff, 0, 0, 0, 0], 3) :=
  ⟨by decide,
    (ack_and_completition_frames [0, 0, 0, 0, 0, 0, 0] [1, 2] (by decide)).1,
    (ack_and_completition_frames [0, 0, 0, 0, 0, 0, 0] [1, 2] (by decide)).2.1,
    (ack_and_completition_frames [0, 0, 0, 0, 0, 0, 0] [1, 2] (by decide)).2.2.2⟩

/-! ## Balanced-tree lemmas -/

theorem avl_height_eq_depth {α : Type} (t : avl_node_t α) (h : avl_balanced t) :
    avl_height t = avl_depth t := by
  cases t with
  | nil => rfl
  | node k d ht l r => exact h.2.2.2.2

theorem avl_inorder_join {α : Type} (l : avl_node_t α) (k : Int) (d : α) (r : avl_node_t α) :
    avl_inorder (avl_join l k d r) = avl_inorder l ++ k :: avl_inorder r := rfl

theorem avl_postorder_join {α : Type} (l : avl_node_t α) (k : Int) (d : α) (r : avl_node_t α) :
    avl_postorder (avl_join l k d r) = avl_postorder l ++ avl_postorder r ++ [(k, d)] := rfl

/-- Rebalancing keeps the in-order sequence of keys. -/
theorem avl_inorder_rebalance {α : Type} (l : avl_node_t α) (k : Int) (d : α)
    (r : avl_node_t α) :
    avl_inorder (avl_rebalance l k d r) = avl_inorder l ++ k :: avl_inorder r := by
  unfold avl_rebalance
  split_ifs with h1 h2
  · cases l with
    | nil => rfl
    | node lk ld lh ll lr =>
      simp only
      split_ifs with h3
      · simp [avl_inorder_join, avl_inorder]
      · cases lr with
        | nil => rfl
        | node mk md mh ml mr => simp [avl_inorder_join, avl_inorder]
  · cases r with
    | nil => rfl
    | node rk rd rh rl rr =>
      simp only
      split_ifs with h3
      · simp [avl_inorder_join, avl_inorder]
      · cases rl with
        | nil => rfl
        | node mk md mh ml mr => simp [avl_inorder_join, avl_inorder]
  · rfl

theorem avl_balanced_join {α : Type} (l : avl_node_t α) (k : Int) (d : α) (r : avl_node_t α)
    (hl : avl_balanced l) (hr : avl_balanced r) (h1 : avl_depth l ≤ avl_depth r + 1)
    (h2 : avl_depth r ≤ avl_depth l + 1) :
    avl_balanced (avl_join l k d r)
      ∧ avl_depth (avl_join l k d r) = max (avl_depth l) (avl_depth r) + 1 := by
  refine ⟨⟨hl, hr, h1, h2, ?_⟩, rfl⟩
  rw [avl_height_eq_depth l hl, avl_height_eq_depth r hr]

/-- Rebalancing two balanced subtrees whose heights differ by at most two gives
a balanced tree; its height is the larger of the two or one more, and one more
when no rotation was needed. -/
theorem avl_balanced_rebalance {α : Type} (l : avl_node_t α) (k : Int) (d : α)
    (r : avl_node_t α) (hl : avl_balanced l) (hr : avl_balanced r)
    (h1 : avl_depth l ≤ avl_depth r + 2) (h2 : avl_depth r ≤ avl_depth l + 2) :
    avl_balanced (avl_rebalance l k d r)
      ∧ max (avl_depth l) (avl_depth r) ≤ avl_depth (avl_rebalance l k d r)
      ∧ avl_depth (avl_rebalance l k d r) ≤ max (avl_depth l) (avl_depth r) + 1
      ∧ (avl_depth l ≤ avl_depth r + 1 → avl_depth r ≤ avl_depth l + 1 →
          avl_depth (avl_rebalance l k d r) = max (avl_depth l) (avl_depth r) + 1) := by
  unfold avl_rebalance
  rw [avl_height_eq_depth l hl, avl_height_eq_depth r hr]
  split_ifs with c1 c2
  · cases l with
    | nil => simp [avl_depth] at c1
    | node lk ld lh ll lr =>
      obtain ⟨bll, blr, b1, b2, -⟩ := hl
      simp only [avl_depth] at c1 h1 h2 ⊢
      rw [avl_height_eq_depth ll bll, avl_height_eq_depth lr blr]
      split_ifs with c3
      · obtain ⟨bi, di⟩ := avl_balanced_join lr k d r blr hr (by omega) (by omega)
        obtain ⟨bo, do_⟩ := avl_balanced_join ll lk ld (avl_join lr k d r) bll bi
          (by omega) (by omega)
        refine ⟨bo, ?_, ?_, ?_⟩ <;> omega
      · cases lr with
        | nil => simp [avl_depth] at c3
        | node mk md mh ml mr =>
          obtain ⟨bml, bmr, m1, m2, -⟩ := blr
          simp only [avl_depth] at c1 c3 b1 b2 h1 h2 ⊢
          obtain ⟨ba, da⟩ := avl_balanced_join ll lk ld ml bll bml (by omega) (by omega)
          obtain ⟨bb, db⟩ := avl_balanced_join mr k d r bmr hr (by omega) (by omega)
          obtain ⟨bo, do_⟩ := avl_balanced_join (avl_join ll lk ld ml) mk md (avl_join mr k d r)
            ba bb (by omega) (by omega)
          refine ⟨bo, ?_, ?_, ?_⟩ <;> omega
  · cases r with
    | nil => simp [avl_depth] at c2
    | node rk rd rh rl rr =>
      obtain ⟨brl, brr, b1, b2, -⟩ := hr
      simp only [avl_depth] at c1 c2 h1 h2 ⊢
      rw [avl_height_eq_depth rl brl, avl_height_eq_depth rr brr]
      split_ifs with c3
      · obtain ⟨bi, di⟩ := avl_balanced_join l k d rl hl brl (by omega) (by omega)
        obtain ⟨bo, do_⟩ := avl_balanced_join (avl_join l k d rl) rk rd rr bi brr
          (by omega) (by omega)
        refine ⟨bo, ?_, ?_, ?_⟩ <;> omega
      · cases rl with
        | nil => simp [avl_depth] at c3
        | node mk md mh ml mr =>
          obtain ⟨bml, bmr, m1, m2, -⟩ := brl
          simp only [avl_depth] at c1 c2 c3 b1 b2 h1 h2 ⊢
          obtain ⟨ba, da⟩ := avl_balanced_join l k d ml hl bml (by omega) (by omega)
          obtain ⟨bb, db⟩ := avl_balanced_join mr rk rd rr bmr brr (by omega) (by omega)
          obtain ⟨bo, do_⟩ := avl_balanced_join (avl_join l k d ml) mk md (avl_join mr rk rd rr)
            ba bb (by omega) (by omega)
          refine ⟨bo, ?_, ?_, ?_⟩ <;> omega
  · obtain ⟨bo, do_⟩ := avl_balanced_join l k d r hl hr (by omega) (by omega)
    refine ⟨bo, ?_, ?_, ?_⟩ <;> omega

theorem avl_balanced_insert_node {α : Type} (t : avl_node_t α) (key : Int) (data : α)
    (h : avl_balanced t) :
    avl_balanced (avl_insert_node t key data)
      ∧ avl_depth t ≤ avl_depth (avl_insert_node t key data)
      ∧ avl_depth (avl_insert_node t key data) ≤ avl_depth t + 1 := by
  induction t with
  | nil =>
    refine ⟨⟨trivial, trivial, ?_, ?_, ?_⟩, ?_, ?_⟩ <;> simp [avl_insert_node, avl_depth]
  | node k d ht l r ihl ihr =>
    obtain ⟨bl, br, b1, b2, b3⟩ := h
    unfold avl_insert_node
    split_ifs with c1 c2
    · obtain ⟨il, i1, i2⟩ := ihl bl
      obtain ⟨rb, r1, r2, r3⟩ := avl_balanced_rebalance (avl_insert_node l key data) k d r il br
        (by omega) (by omega)
      refine ⟨rb, ?_, ?_⟩
      · simp only [avl_depth]; omega
      · simp only [avl_depth]
        by_cases hb : avl_depth (avl_insert_node l key data) ≤ avl_depth r + 1
        · have := r3 hb (by omega)
          omega
        · omega
    · obtain ⟨ir, i1, i2⟩ := ihr br
      obtain ⟨rb, r1, r2, r3⟩ := avl_balanced_rebalance l k d (avl_insert_node r key data) bl ir
        (by omega) (by omega)
      refine ⟨rb, ?_, ?_⟩
      · simp only [avl_depth]; omega
      · simp only [avl_depth]
        by_cases hb : avl_depth (avl_insert_node r key data) ≤ avl_depth l + 1
        · have := r3 (by omega) hb
          omega
        · omega
    · exact ⟨⟨bl, br, b1, b2, b3⟩, Nat.le_refl _, Nat.le_succ _⟩

theorem avl_balanced_take_min {α : Type} (l : avl_node_t α) :
    ∀ (k : Int) (d : α) (r : avl_node_t α) (h : Nat),
      avl_balanced (avl_node_t.node k d h l r) →
        avl_balanced (avl_take_min k d l r).2
          ∧ avl_depth (avl_take_min k d l r).2 ≤ avl_depth (avl_node_t.node k d h l r)
          ∧ avl_depth (avl_node_t.node k d h l r) ≤ avl_depth (avl_take_min k d l r).2 + 1 := by
  induction l with
  | nil =>
    intro k d r h hb
    obtain ⟨-, br, b1, b2, -⟩ := hb
    simp only [avl_take_min, avl_depth] at b1 b2 ⊢
    exact ⟨br, by omega, by omega⟩
  | node lk ld lh ll lr ihl _ =>
    intro k d r h hb
    obtain ⟨bl, br, b1, b2, -⟩ := hb
    obtain ⟨tb, t1, t2⟩ := ihl lk ld lr lh bl
    unfold avl_take_min
    simp only
    obtain ⟨rb, r1, r2, r3⟩ := avl_balanced_rebalance (avl_take_min lk ld ll lr).2 k d r tb br
      (by omega) (by omega)
    refine ⟨rb, ?_, ?_⟩
    · simp only [avl_depth] at t1 t2 b1 b2 ⊢
      omega
    · simp only [avl_depth] at t1 t2 b1 b2 ⊢
      by_cases hb : avl_depth r ≤ avl_depth (avl_take_min lk ld ll lr).2 + 1
      · have := r3 (by omega) hb
        omega
      · omega

theorem avl_balanced_delete_node {α : Type} (t : avl_node_t α) (key : Int)
    (h : avl_balanced t) :
    avl_balanced (avl_delete_node t key)
      ∧ avl_depth (avl_delete_node t key) ≤ avl_depth t
      ∧ avl_depth t ≤ avl_depth (avl_delete_node t key) + 1 := by
  induction t with
  | nil => exact ⟨trivial, Nat.le_refl _, Nat.le_succ _⟩
  | node k d ht l r ihl ihr =>
    obtain ⟨bl, br, b1, b2, b3⟩ := h
    unfold avl_delete_node
    split_ifs with c1 c2
    · obtain ⟨dl, d1, d2⟩ := ihl bl
      obtain ⟨rb, r1, r2, r3⟩ := avl_balanced_rebalance (avl_delete_node l key) k d r dl br
        (by omega) (by omega)
      refine ⟨rb, ?_, ?_⟩
      · simp only [avl_depth]
        by_cases hb : avl_depth r ≤ avl_depth (avl_delete_node l key) + 1
        · have := r3 (by omega) hb
          omega
        · omega
      · simp only [avl_depth]; omega
    · obtain ⟨dr, d1, d2⟩ := ihr br
      obtain ⟨rb, r1, r2, r3⟩ := avl_balanced_rebalance l k d (avl_delete_node r key) bl dr
        (by omega) (by omega)
      refine ⟨rb, ?_, ?_⟩
      · simp only [avl_depth]
        by_cases hb : avl_depth l ≤ avl_depth (avl_delete_node r key) + 1
        · have := r3 hb (by omega)
          omega
        · omega
      · simp only [avl_depth]; omega
    · cases r with
      | nil =>
        simp only [avl_depth] at b1 b2 ⊢
        exact ⟨bl, by omega, by omega⟩
      | node rk rd rh rl rr =>
        cases l with
        | nil =>
          simp only [avl_depth] at b1 b2 ⊢
          exact ⟨br, by omega, by omega⟩
        | node lk ld lh ll lr =>
          simp only
          obtain ⟨tb, t1, t2⟩ := avl_balanced_take_min rl rk rd rr rh br
          obtain ⟨rb, r1, r2, r3⟩ := avl_balanced_rebalance (avl_node_t.node lk ld lh ll lr)
            (avl_take_min rk rd rl rr).1.1 (avl_take_min rk rd rl rr).1.2
            (avl_take_min rk rd rl rr).2 bl tb (by omega) (by omega)
          refine ⟨rb, ?_, ?_⟩
          · rw [show avl_depth (avl_node_t.node k d ht (avl_node_t.node lk ld lh ll lr)
                (avl_node_t.node rk rd rh rl rr))
              = max (avl_depth (avl_node_t.node lk ld lh ll lr))
                  (avl_depth (avl_node_t.node rk rd rh rl rr)) + 1 from rfl]
            by_cases hb : avl_depth (avl_node_t.node lk ld lh ll lr)
                ≤ avl_depth (avl_take_min rk rd rl rr).2 + 1
            · have := r3 hb (by omega)
              omega
            · omega
          · rw [show avl_depth (avl_node_t.node k d ht (avl_node_t.node lk ld lh ll lr)
                (avl_node_t.node rk rd rh rl rr))
              = max (avl_depth (avl_node_t.node lk ld lh ll lr))
                  (avl_depth (avl_node_t.node rk rd rh rl rr)) + 1 from rfl]
            omega

/-! ### Keys -/

theorem avl_inorder_take_min {α : Type} (l : avl_node_t α) :
    ∀ (k : Int) (d : α) (r : avl_node_t α) (h : Nat),
      avl_inorder (avl_node_t.node k d h l r)
        = (avl_take_min k d l r).1.1 :: avl_inorder (avl_take_min k d l r).2 := by
  induction l with
  | nil => intro k d r h; rfl
  | node lk ld lh ll lr ihl _ =>
    intro k d r h
    unfold avl_take_min
    simp only [avl_inorder_rebalance]
    have := ihl lk ld lr lh
    simp only [avl_inorder] at this ⊢
    rw [this]
    rfl

theorem avl_mem_inorder_insert_node {α : Type} (t : avl_node_t α) (key : Int) (data : α)
    (x : Int) :
    x ∈ avl_inorder (avl_insert_node t key data) ↔ x = key ∨ x ∈ avl_inorder t := by
  induction t with
  | nil => simp [avl_insert_node, avl_inorder]
  | node k d ht l r ihl ihr =>
    unfold avl_insert_node
    split_ifs with c1 c2
    · simp only [avl_inorder_rebalance, avl_inorder, List.mem_append, List.mem_cons, ihl]
      tauto
    · simp only [avl_inorder_rebalance, avl_inorder, List.mem_append, List.mem_cons, ihr]
      tauto
    · have hk : key = k := by omega
      subst hk
      simp only [avl_inorder, List.mem_append, List.mem_cons]
      tauto

/-- Strictly ascending keys. -/
theorem ascending_around (a b : List Int) (k : Int) :
    (a ++ k :: b).Pairwise (fun x y => x < y)
      ↔ a.Pairwise (fun x y => x < y) ∧ b.Pairwise (fun x y => x < y)
        ∧ (∀ x ∈ a, x < k) ∧ (∀ y ∈ b, k < y) := by
  rw [List.pairwise_append, List.pairwise_cons]
  constructor
  · rintro ⟨ha, ⟨hk, hb⟩, hab⟩
    exact ⟨ha, hb, fun x hx => hab x hx k (List.mem_cons_self _ _), hk⟩
  · rintro ⟨ha, hb, hak, hkb⟩
    refine ⟨ha, ⟨hkb, hb⟩, ?_⟩
    intro x hx y hy
    rcases List.mem_cons.mp hy with rfl | hy
    · exact hak x hx
    · exact lt_trans (hak x hx) (hkb y hy)

theorem avl_ascending_insert_node {α : Type} (t : avl_node_t α) (key : Int) (data : α)
    (h : (avl_inorder t).Pairwise (fun x y => x < y)) :
    (avl_inorder (avl_insert_node t key data)).Pairwise (fun x y => x < y) := by
  induction t with
  | nil => simp [avl_insert_node, avl_inorder]
  | node k d ht l r ihl ihr =>
    simp only [avl_inorder] at h
    obtain ⟨hl, hr, hlk, hkr⟩ := (ascending_around _ _ _).mp h
    unfold avl_insert_node
    split_ifs with c1 c2
    · rw [avl_inorder_rebalance, ascending_around]
      refine ⟨ihl hl, hr, ?_, hkr⟩
      intro x hx
      rcases (avl_mem_inorder_insert_node l key data x).mp hx with rfl | hx
      · exact c1
      · exact hlk x hx
    · rw [avl_inorder_rebalance, ascending_around]
      refine ⟨hl, ihr hr, hlk, ?_⟩
      intro x hx
      rcases (avl_mem_inorder_insert_node r key data x).mp hx with rfl | hx
      · exact c2
      · exact hkr x hx
    · simp only [avl_inorder]
      exact h

theorem avl_inorder_delete_sublist {α : Type} (t : avl_node_t α) (key : Int) :
    (avl_inorder (avl_delete_node t key)).Sublist (avl_inorder t) := by
  induction t with
  | nil => exact List.Sublist.refl _
  | node k d ht l r ihl ihr =>
    unfold avl_delete_node
    split_ifs with c1 c2
    · rw [avl_inorder_rebalance]
      exact List.Sublist.append ihl (List.Sublist.refl _)
    · rw [avl_inorder_rebalance]
      exact List.Sublist.append (List.Sublist.refl _) (List.Sublist.cons₂ _ ihr)
    · cases r with
      | nil =>
        simp only [avl_inorder]
        exact List.sublist_append_left _ _
      | node rk rd rh rl rr =>
        cases l with
        | nil =>
          simp only [avl_inorder, List.nil_append]
          exact List.sublist_cons_self _ _
        | node lk ld lh ll lr =>
          simp only
          rw [avl_inorder_rebalance, ← avl_inorder_take_min rl rk rd rr rh]
          show (avl_inorder (avl_node_t.node lk ld lh ll lr)
              ++ avl_inorder (avl_node_t.node rk rd rh rl rr)).Sublist
            (avl_inorder (avl_node_t.node lk ld lh ll lr)
              ++ k :: avl_inorder (avl_node_t.node rk rd rh rl rr))
          exact List.Sublist.append (List.Sublist.refl _) (List.sublist_cons_self _ _)

/-- The key that was asked for is gone after a delete, when the keys ascend. -/
theorem avl_not_mem_inorder_delete_node {α : Type} (t : avl_node_t α) (key : Int)
    (h : (avl_inorder t).Pairwise (fun x y => x < y)) :
    key ∉ avl_inorder (avl_delete_node t key) := by
  induction t with
  | nil => simp [avl_delete_node, avl_inorder]
  | node k d ht l r ihl ihr =>
    simp only [avl_inorder] at h
    obtain ⟨hl, hr, hlk, hkr⟩ := (ascending_around _ _ _).mp h
    unfold avl_delete_node
    split_ifs with c1 c2
    · rw [avl_inorder_rebalance]
      simp only [List.mem_append, List.mem_cons, not_or]
      exact ⟨ihl hl, by omega, fun hx => by have := hkr key hx; omega⟩
    · rw [avl_inorder_rebalance]
      simp only [List.mem_append, List.mem_cons, not_or]
      exact ⟨fun hx => by have := hlk key hx; omega, by omega, ihr hr⟩
    · have hk : key = k := by omega
      subst hk
      have nl : key ∉ avl_inorder l := fun hx => by have := hlk key hx; omega
      have nr : key ∉ avl_inorder r := fun hx => by have := hkr key hx; omega
      cases r with
      | nil => exact nl
      | node rk rd rh rl rr =>
        cases l with
        | nil => exact nr
        | node lk ld lh ll lr =>
          simp only
          rw [avl_inorder_rebalance, ← avl_inorder_take_min rl rk rd rr rh]
          simp only [List.mem_append, not_or]
          exact ⟨nl, nr⟩

/-! ## Lookup by address -/

theorem strstr_isSome_iff (haystack needle : List Char) :
    (strstr haystack needle).isSome = true ↔ needle <:+: haystack := by
  induction haystack with
  | nil =>
    unfold strstr
    by_cases h : needle = []
    · simp [h]
    · simp [h]
  | cons c haystack ih =>
    unfold strstr
    rw [List.infix_cons_iff]
    by_cases hp : needle.isPrefixOf (c :: haystack) = true
    · simp only [hp, if_true, Option.isSome_some, true_iff]
      exact Or.inl (List.isPrefixOf_iff_prefix.mp hp)
    · simp only [hp, if_false, Bool.false_eq_true]
      rw [ih]
      constructor
      · exact Or.inr
      · rintro (h | h)
        · exact absurd (List.isPrefixOf_iff_prefix.mpr h) hp
        · exact h

/-- The recursive search returns the first Endpoint, in the order left subtree,
right subtree, node, whose `service_endpoint` contains the needle. -/
theorem find_soap_instance_matching_ip_eq (node : avl_node_t soap_instance) (ip : List Char) :
    find_soap_instance_matching_ip node ip
      = ((avl_postorder node).map Prod.snd).find?
          (fun d => decide (ip <:+: d.service_endpoint)) := by
  induction node with
  | nil => rfl
  | node k d h l r ihl ihr =>
    unfold find_soap_instance_matching_ip
    simp only [avl_postorder, List.map_append, List.map_cons, List.map_nil, List.find?_append,
      ← ihl, ← ihr]
    cases hl : find_soap_instance_matching_ip l ip with
    | some res => simp
    | none =>
      cases hr : find_soap_instance_matching_ip r ip with
      | some res => simp
      | none =>
        by_cases hm : ip <:+: d.service_endpoint
        · simp [hm, (strstr_isSome_iff _ _).mpr hm]
        · have hn : (strstr d.service_endpoint ip).isSome = false := by
            rw [Bool.eq_false_iff]
            exact fun h => hm ((strstr_isSome_iff _ _).mp h)
          simp [hm, hn]

theorem address_mngr_find_eq (address_map : avl_tree_t soap_instance) (ip : List Char) :
    address_mngr_find_soap_instance_matching_ip address_map ip
      = ((avl_postorder address_map.root).map Prod.snd).find?
          (fun d => decide (ip <:+: d.service_endpoint)) := by
  unfold address_mngr_find_soap_instance_matching_ip
  cases hroot : address_map.root with
  | nil => rfl
  | node k d h l r => exact find_soap_instance_matching_ip_eq _ ip

/-- C13: `address_mngr_find_soap_instance_matching_ip` returns the first
Endpoint, in the order left subtree, right subtree, node, whose
`service_endpoint` contains the needle as a substring, and none when the tree
is empty or no Endpoint matches. It returns some Endpoint exactly when one
matches, and with a single matching Endpoint it returns that one. -/
theorem find_matching_ip_is_first_in_postorder (address_map : avl_tree_t soap_instance)
    (ip : List Char) :
    address_mngr_find_soap_instance_matching_ip address_map ip
      = ((avl_postorder address_map.root).map Prod.snd).find?
          (fun d => decide (ip <:+: d.service_endpoint)) ∧
    (address_map.root = avl_node_t.nil →
      address_mngr_find_soap_instance_matching_ip address_map ip = none) ∧
    ((∀ d ∈ (avl_postorder address_map.root).map Prod.snd, ¬ ip <:+: d.service_endpoint) →
      address_mngr_find_soap_instance_matching_ip address_map ip = none) ∧
    ((address_mngr_find_soap_instance_matching_ip address_map ip).isSome = true
      ↔ ∃ d ∈ (avl_postorder address_map.root).map Prod.snd, ip <:+: d.service_endpoint) ∧
    (∀ d ∈ (avl_postorder address_map.root).map Prod.snd, ip <:+: d.service_endpoint →
      (∀ x ∈ (avl_postorder address_map.root).map Prod.snd, ip <:+: x.service_endpoint → x = d) →
      address_mngr_find_soap_instance_matching_ip address_map ip = some d) := by
  rw [address_mngr_find_eq]
  refine ⟨rfl, ?_, ?_, ?_, ?_⟩
  · intro h
    rw [h]
    rfl
  · intro h
    rw [List.find?_eq_none]
    intro x hx
    simpa using h x hx
  · rw [List.find?_isSome]
    simp only [decide_eq_true_eq]
  · intro d hd hm huniq
    cases hf : List.find? (fun d => decide (ip <:+: d.service_endpoint))
        ((avl_postorder address_map.root).map Prod.snd) with
    | none =>
      rw [List.find?_eq_none] at hf
      exact absurd hm (by simpa using hf d hd)
    | some x =>
      have hx1 := List.find?_some hf
      have hx2 := List.mem_of_find?_eq_some hf
      rw [huniq x hx2 (by simpa using hx1)]

/-- C13 on a map of three Endpoints that all contain the needle: the one in the
left subtree is returned, before the one in the right subtree and the root. -/
theorem find_matching_ip_is_first_in_postorder_witness :
    address_mngr_find_soap_instance_matching_ip
        (avl_tree_t.mk (avl_node_t.node 5 (soap_instance.mk "http://10.0.0.5/".toList) 2
          (avl_node_t.node 4 (soap_instance.mk "http://10.0.0.4/".toList) 1 avl_node_t.nil
            avl_node_t.nil)
          (avl_node_t.node 6 (soap_instance.mk "http://10.0.0.6/".toList) 1 avl_node_t.nil
            avl_node_t.nil)))
        "10.0.0".toList
      = some (soap_instance.mk "http://10.0.0.4/".toList) :=
  (find_matching_ip_is_first_in_postorder _ _).1.trans (by decide)

/-! ## The balanced-tree invariant over call sequences -/

theorem avl_run_invariant {α : Type} (calls : List (avl_call α)) :
    ∀ tree : avl_tree_t α,
      (avl_inorder tree.root).Pairwise (fun x y => x < y) → avl_balanced tree.root →
        (avl_inorder (avl_run tree calls).root).Pairwise (fun x y => x < y)
          ∧ avl_balanced (avl_run tree calls).root := by
  induction calls with
  | nil => intro tree h1 h2; exact ⟨h1, h2⟩
  | cons call calls ih =>
    intro tree h1 h2
    cases call with
    | insert key data =>
      exact ih (avl_tree_insert tree key data) (avl_ascending_insert_node _ key data h1)
        (avl_balanced_insert_node _ key data h2).1
    | delete key =>
      exact ih (avl_tree_delete tree key)
        (List.Pairwise.sublist (avl_inorder_delete_sublist _ key) h1)
        (avl_balanced_delete_node _ key h2).1

/-- C19: after any sequence of `avl_tree_insert` and `avl_tree_delete` calls on
the tree made by `avl_tree_construct`, the in-order traversal yields strictly
ascending keys and at every node the heights of the two child subtrees differ
by at most one (and the `height` member holds the height). The calls do their
work: a key is in the tree after its insert and gone after its delete. -/
theorem avl_invariant_after_any_calls {α : Type} (calls : List (avl_call α)) :
    (avl_inorder (avl_run avl_tree_construct calls).root).Pairwise (fun x y => x < y) ∧
    avl_balanced (avl_run avl_tree_construct calls).root ∧
    (∀ (key : Int) (data : α),
      key ∈ avl_inorder (avl_tree_insert (avl_run avl_tree_construct calls) key data).root) ∧
    (∀ key : Int,
      key ∉ avl_inorder (avl_tree_delete (avl_run avl_tree_construct calls) key).root) := by
  obtain ⟨h1, h2⟩ := avl_run_invariant calls (avl_tree_construct : avl_tree_t α)
    List.Pairwise.nil trivial
  refine ⟨h1, h2, ?_, ?_⟩
  · intro key data
    exact (avl_mem_inorder_insert_node _ key data key).mpr (Or.inl rfl)
  · intro key
    exact avl_not_mem_inorder_delete_node _ key h1

/-! ## Port-table lemmas -/

theorem bit_coordinates (n : Nat) :
    BITSLOT (n : Int) = ((n / 8 : Nat) : Int) ∧ BITMASK (n : Int) = 2 ^ (n % 8) := by
  constructor
  · unfold BITSLOT CHAR_BIT
    exact (Int.ofNat_tdiv n 8).symm
  · unfold BITMASK CHAR_BIT
    rw [Nat.one_shiftLeft]
    have h : Int.tmod (n : Int) 8 = ((n % 8 : Nat) : Int) := (Int.ofNat_tmod n 8).symm
    rw [h, Int.toNat_ofNat]

theorem and_two_pow_ne_zero (x i : Nat) : x &&& 2 ^ i ≠ 0 ↔ x.testBit i = true := by
  rw [Nat.and_two_pow]
  cases h : x.testBit i
  · simp
  · simp

/-- A bit of the table is set when the bit `n % 8` of the `char` at `n / 8` is. -/
theorem BITTEST_ne_zero_iff (a : List Nat) (n : Nat) :
    BITTEST a (n : Int) ≠ 0 ↔ (a.getD (n / 8) 0).testBit (n % 8) = true := by
  unfold BITTEST slot_get
  rw [(bit_coordinates n).1, (bit_coordinates n).2, if_pos (Int.ofNat_nonneg _), Int.toNat_ofNat]
  exact and_two_pow_ne_zero _ _

theorem BITSET_getD (a : List Nat) (n j : Nat) (hlen : n / 8 < a.length) :
    (BITSET a (n : Int)).getD j 0
      = if j = n / 8 then (a.getD (n / 8) 0 ||| 2 ^ (n % 8)) % 256 else a.getD j 0 := by
  unfold BITSET slot_put slot_get
  rw [(bit_coordinates n).1, (bit_coordinates n).2, if_pos (Int.ofNat_nonneg _),
    if_pos (Int.ofNat_nonneg _), Int.toNat_ofNat]
  by_cases hj : j = n / 8
  · subst hj
    rw [if_pos rfl, List.getD_eq_getElem _ _ (by rw [List.length_set]; exact hlen),
      List.getElem_set_self]
  · rw [if_neg hj]
    by_cases hjl : j < a.length
    · rw [List.getD_eq_getElem _ _ (by rw [List.length_set]; exact hjl),
        List.getD_eq_getElem _ _ hjl, List.getElem_set_ne (fun h => hj h.symm)]
    · rw [List.getD_eq_default _ _ (by rw [List.length_set]; omega),
        List.getD_eq_default _ _ (by omega)]

theorem BITSET_length (a : List Nat) (b : Int) : (BITSET a b).length = a.length := by
  unfold BITSET slot_put
  split_ifs
  · exact List.length_set _ _ _
  · rfl

/-- After `BITSET` of bit `n` exactly the bits set before and bit `n` are set. -/
theorem BITTEST_BITSET (a : List Nat) (n n2 : Nat) (hlen : n / 8 < a.length) :
    BITTEST (BITSET a (n : Int)) (n2 : Int) ≠ 0 ↔ n2 = n ∨ BITTEST a (n2 : Int) ≠ 0 := by
  rw [BITTEST_ne_zero_iff, BITTEST_ne_zero_iff, BITSET_getD a n _ hlen]
  by_cases hj : n2 / 8 = n / 8
  · rw [if_pos hj, show (256 : Nat) = 2 ^ 8 from rfl, Nat.testBit_mod_two_pow, Nat.testBit_or,
      Nat.testBit_two_pow, hj]
    have h8 : n2 % 8 < 8 := Nat.mod_lt _ (by norm_num)
    simp only [h8, decide_True, Bool.true_and, Bool.or_eq_true, decide_eq_true_eq]
    constructor
    · rintro (h | h)
      · exact Or.inr h
      · exact Or.inl (by omega)
    · rintro (h | h)
      · exact Or.inr (by omega)
      · exact Or.inl h
  · rw [if_neg hj]
    constructor
    · exact Or.inr
    · rintro (h | h)
      · exact absurd (by rw [h]) hj
      · exact h

theorem BITTEST_replicate_zero (k n : Nat) : BITTEST (List.replicate k 0) (n : Int) = 0 := by
  by_contra h
  have h := (BITTEST_ne_zero_iff _ _).mp h
  have hz : (List.replicate k 0).getD (n / 8) 0 = 0 := by
    by_cases hl : n / 8 < k
    · rw [List.getD_eq_getElem _ _ (by rw [List.length_replicate]; exact hl),
        List.getElem_replicate]
    · rw [List.getD_eq_default _ _ (by rw [List.length_replicate]; omega)]
  rw [hz, Nat.zero_testBit] at h
  exact absurd h (by decide)

/-- The bit index of a port that has a bit in the table. -/
theorem port_bit_in_table (port : Int) (h : port_in_table port) :
    port_bit port = (((port - 1024).toNat : Nat) : Int) ∧ (port - 1024).toNat / 8 < 3968 ∧
      (BITNSLOTS NPORTS).toNat = 3968 := by
  unfold port_in_table NPORTS at h
  refine ⟨?_, ?_, by decide⟩
  · unfold port_bit
    rw [wrap_int_of_fits _ (by omega) (by omega)]
    omega
  · omega

/-! ## Registry lemmas -/

/-- What an add on a port that is not marked yet does to the marks: the port gets
its mark and no other mark changes. -/
theorem marked_after_BITSET (bits : List Nat) (port q : Int) (hport : port_in_table port)
    (hq : port_in_table q) (hlen : bits.length = (BITNSLOTS NPORTS).toNat) :
    BITTEST (BITSET bits (port_bit port)) (port_bit q) ≠ 0
      ↔ q = port ∨ BITTEST bits (port_bit q) ≠ 0 := by
  obtain ⟨hp1, hp2, hp3⟩ := port_bit_in_table port hport
  obtain ⟨hq1, -, -⟩ := port_bit_in_table q hq
  rw [hp1, hq1, BITTEST_BITSET _ _ _ (by omega)]
  unfold port_in_table at hport hq
  constructor
  · rintro (h | h)
    · exact Or.inl (by omega)
    · exact Or.inr h
  · rintro (h | h)
    · exact Or.inl (by rw [h])
    · exact Or.inr h

theorem add_by_port_marked (m : address_manager) (port : Int) (address : List Char) (fd : Int)
    (allocate : List Char → Option soap_instance)
    (h : BITTEST m.used_ports_bitset (port_bit port) ≠ 0) :
    address_mngr_add_address_by_port m port address fd allocate = m := by
  unfold address_mngr_add_address_by_port
  rw [if_pos h]

/-- After an add the port is marked, whatever the allocation gave. -/
theorem marked_after_add (m : address_manager) (port : Int) (address : List Char) (fd : Int)
    (allocate : List Char → Option soap_instance) (hport : port_in_table port)
    (hlen : m.used_ports_bitset.length = (BITNSLOTS NPORTS).toNat) :
    BITTEST (address_mngr_add_address_by_port m port address fd allocate).used_ports_bitset
      (port_bit port) ≠ 0 := by
  by_cases h : BITTEST m.used_ports_bitset (port_bit port) ≠ 0
  · rw [add_by_port_marked m port address fd allocate h]
    exact h
  · unfold address_mngr_add_address_by_port
    rw [if_neg h]
    cases allocate address with
    | none => exact (marked_after_BITSET _ port port hport hport hlen).mpr (Or.inl rfl)
    | some inst => exact (marked_after_BITSET _ port port hport hport hlen).mpr (Or.inl rfl)

theorem add_by_port_table_length (m : address_manager) (port : Int) (address : List Char)
    (fd : Int) (allocate : List Char → Option soap_instance) :
    (address_mngr_add_address_by_port m port address fd allocate).used_ports_bitset.length
      = m.used_ports_bitset.length := by
  unfold address_mngr_add_address_by_port
  split_ifs with h
  · rfl
  · cases allocate address with
    | none => exact BITSET_length _ _
    | some inst => exact BITSET_length _ _

theorem init_table_length (m : address_manager) :
    (address_mngr_init m).used_ports_bitset.length = (BITNSLOTS NPORTS).toNat :=
  List.length_replicate _ _

/-- C11: an add on a port of the table whose bit is already set changes
nothing: the port table, the map, the open sockets, the allocated Endpoints and
the descriptors of the worker are as before. Hence a second add of an address
that derives the same port as the first leaves the registry as the first add
left it. -/
theorem add_on_marked_port_changes_nothing (m : address_manager) (port : Int)
    (address x y : List Char) (fd fd1 fd2 : Int)
    (allocate allocate1 allocate2 : List Char → Option soap_instance)
    (hset : port_in_table port ∧ BITTEST m.used_ports_bitset (port_bit port) ≠ 0)
    (hlen : m.used_ports_bitset.length = (BITNSLOTS NPORTS).toNat)
    (hx : port_in_table (create_unique_port_from_ip x))
    (hsame : create_unique_port_from_ip y = create_unique_port_from_ip x) :
    address_mngr_add_address_by_port m port address fd allocate = m ∧
    address_mngr_add_address (address_mngr_add_address m x fd1 allocate1) y fd2 allocate2
      = address_mngr_add_address m x fd1 allocate1 := by
  refine ⟨add_by_port_marked m port address fd allocate hset.2, ?_⟩
  unfold address_mngr_add_address
  rw [hsame]
  exact add_by_port_marked _ _ _ _ _ (marked_after_add m _ x fd1 allocate1 hx hlen)

/-- C11 at Scenario C: the second add of 192.168.11.7, and an add of
10.0.11.7, which derives the same port 1107, change nothing. -/
theorem add_on_marked_port_changes_nothing_witness :
    (port_in_table 1107 ∧ BITTEST scenario_c_registry.used_ports_bitset (port_bit 1107) ≠ 0) ∧
    scenario_c_registry.used_ports_bitset.length = (BITNSLOTS NPORTS).toNat ∧
    port_in_table (create_unique_port_from_ip "192.168.11.7".toList) ∧
    create_unique_port_from_ip "10.0.11.7".toList
      = create_unique_port_from_ip "192.168.11.7".toList ∧
    address_mngr_add_address_by_port scenario_c_registry 1107 "192.168.11.7".toList 6
        (fun a => some (soap_instance.mk a)) = scenario_c_registry ∧
    address_mngr_add_address
        (address_mngr_add_address scenario_c_registry "192.168.11.7".toList 6
          (fun a => some (soap_instance.mk a)))
        "10.0.11.7".toList 7 (fun a => some (soap_instance.mk a))
      = address_mngr_add_address scenario_c_registry "192.168.11.7".toList 6
          (fun a => some (soap_instance.mk a)) :=
  ⟨by decide, (add_by_port_table_length _ _ _ _ _).trans (init_table_length _), by decide,
    by decide,
    add_on_marked_port_changes_nothing scenario_c_registry 1107 "192.168.11.7".toList
      "192.168.11.7".toList "10.0.11.7".toList 6 6 7 (fun a => some (soap_instance.mk a))
      (fun a => some (soap_instance.mk a)) (fun a => some (soap_instance.mk a))
      (by decide) ((add_by_port_table_length _ _ _ _ _).trans (init_table_length _)) (by decide)
      (by decide)⟩

/-- The effect of an add whose allocation succeeds, on a port of the table, with
a descriptor that is not open yet: the table keeps its length, the port is
marked on top of the ports marked before, and it is owned on top of the ports
owned before. -/
theorem add_by_port_effect (m : address_manager) (port : Int) (address : List Char) (fd : Int)
    (inst : soap_instance) (hport : port_in_table port)
    (hlen : m.used_ports_bitset.length = (BITNSLOTS NPORTS).toNat)
    (hfresh : fd ∉ m.sockets.map Prod.fst) :
    (∀ q, port_in_table q →
      (port_marked (address_mngr_add_address_by_port m port address fd (fun _ => some inst)) q
        ↔ q = port ∨ port_marked m q)) ∧
    (∀ q, port_in_table q →
      (port_owned (address_mngr_add_address_by_port m port address fd (fun _ => some inst)) q
        ↔ (q = port ∧ ¬ port_marked m port) ∨ port_owned m q)) := by
  by_cases h : BITTEST m.used_ports_bitset (port_bit port) ≠ 0
  · rw [add_by_port_marked m port address fd _ h]
    constructor
    · intro q _
      constructor
      · exact Or.inr
      · rintro (rfl | hq)
        · exact h
        · exact hq
    · intro q _
      constructor
      · exact Or.inr
      · rintro (⟨-, hn⟩ | hq)
        · exact absurd h hn
        · exact hq
  · unfold address_mngr_add_address_by_port
    rw [if_neg h]
    simp only
    constructor
    · intro q hq
      exact marked_after_BITSET _ port q hport hq hlen
    · intro q hq
      unfold port_owned avl_tree_insert
      simp only [avl_mem_inorder_insert_node, List.mem_append, List.mem_singleton,
        Prod.mk.injEq]
      constructor
      · rintro ⟨f, hf, hs | ⟨rfl, rfl⟩⟩
        · rcases hf with rfl | hf
          · exact absurd (List.mem_map_of_mem Prod.fst hs) hfresh
          · exact Or.inr ⟨f, hf, hs⟩
        · exact Or.inl ⟨rfl, h⟩
      · rintro (⟨rfl, -⟩ | ⟨f, hf, hs⟩)
        · exact ⟨fd, Or.inl rfl, Or.inr ⟨rfl, rfl⟩⟩
        · exact ⟨f, Or.inr hf, Or.inl hs⟩

theorem destruct_fold_table (nodes : List (Int × soap_instance)) (m : address_manager) :
    (nodes.foldl node_destruction_cb m).used_ports_bitset = m.used_ports_bitset := by
  induction nodes generalizing m with
  | nil => rfl
  | cons node nodes ih => simp only [List.foldl_cons]; rw [ih]; rfl

/-- The teardown empties the map and leaves the port table as it is. -/
theorem destruct_effect (m : address_manager) :
    (address_mngr_destruct m).address_map.root = avl_node_t.nil ∧
    (address_mngr_destruct m).used_ports_bitset = m.used_ports_bitset := by
  unfold address_mngr_destruct avl_tree_destruct
  exact ⟨rfl, destruct_fold_table _ m⟩

/-- The registry invariants along a fair sequence of calls. -/
theorem manager_run_invariant (calls : List manager_call) :
    ∀ m : address_manager, calls_fair m calls →
      m.used_ports_bitset.length = (BITNSLOTS NPORTS).toNat →
      (∀ q, port_in_table q → port_owned m q → port_marked m q) →
        (∀ q, port_in_table q → port_owned (manager_run m calls) q →
          port_marked (manager_run m calls) q) ∧
        ((∀ c ∈ calls, is_add c = true) →
          (∀ q, port_in_table q → port_marked m q → port_owned m q) →
          ∀ q, port_in_table q → port_marked (manager_run m calls) q →
            port_owned (manager_run m calls) q) := by
  induction calls with
  | nil =>
    intro m _ _ h1
    exact ⟨h1, fun _ h2 => h2⟩
  | cons call calls ih =>
    intro m hfair hlen h1
    have step : ∀ (port : Int) (address : List Char) (fd : Int) (inst : soap_instance),
        port_in_table port → fd ∉ m.sockets.map Prod.fst →
        calls_fair (address_mngr_add_address_by_port m port address fd (fun _ => some inst))
          calls →
        (∀ q, port_in_table q →
          port_owned (manager_run
            (address_mngr_add_address_by_port m port address fd (fun _ => some inst)) calls) q →
          port_marked (manager_run
            (address_mngr_add_address_by_port m port address fd (fun _ => some inst)) calls) q) ∧
        ((∀ c ∈ calls, is_add c = true) →
          (∀ q, port_in_table q → port_marked m q → port_owned m q) →
          ∀ q, port_in_table q →
            port_marked (manager_run
              (address_mngr_add_address_by_port m port address fd (fun _ => some inst)) calls) q →
            port_owned (manager_run
              (address_mngr_add_address_by_port m port address fd (fun _ => some inst)) calls)
              q) := by
      intro port address fd inst hport hfresh hrest
      obtain ⟨e1, e2⟩ := add_by_port_effect m port address fd inst hport hlen hfresh
      have h1n : ∀ q, port_in_table q →
          port_owned (address_mngr_add_address_by_port m port address fd (fun _ => some inst)) q →
          port_marked (address_mngr_add_address_by_port m port address fd (fun _ => some inst))
            q := by
        intro q hq ho
        rcases (e2 q hq).mp ho with ⟨rfl, -⟩ | ho
        · exact (e1 q hq).mpr (Or.inl rfl)
        · exact (e1 q hq).mpr (Or.inr (h1 q hq ho))
      obtain ⟨r1, r2⟩ := ih _ hrest
        ((add_by_port_table_length m port address fd _).trans hlen) h1n
      refine ⟨r1, fun hadd h2 => r2 hadd ?_⟩
      intro q hq hm
      rcases (e1 q hq).mp hm with rfl | hm
      · by_cases hpm : port_marked m q
        · exact (e2 q hq).mpr (Or.inr (h2 q hq hpm))
        · exact (e2 q hq).mpr (Or.inl ⟨rfl, hpm⟩)
      · exact (e2 q hq).mpr (Or.inr (h2 q hq hm))
    cases call with
    | add_address_by_port port address fd allocated =>
      obtain ⟨hport, hsome, hfresh, hrest⟩ := hfair
      obtain ⟨inst, rfl⟩ := Option.isSome_iff_exists.mp hsome
      obtain ⟨s1, s2⟩ := step port address fd inst hport hfresh hrest
      exact ⟨s1, fun hadd => s2 (fun c hc => hadd c (List.mem_cons_of_mem _ hc))⟩
    | add_address address fd allocated =>
      obtain ⟨hport, hsome, hfresh, hrest⟩ := hfair
      obtain ⟨inst, rfl⟩ := Option.isSome_iff_exists.mp hsome
      obtain ⟨s1, s2⟩ := step _ address fd inst hport hfresh hrest
      exact ⟨s1, fun hadd => s2 (fun c hc => hadd c (List.mem_cons_of_mem _ hc))⟩
    | destruct =>
      have hd := destruct_effect m
      have h1n : ∀ q, port_in_table q → port_owned (address_mngr_destruct m) q →
          port_marked (address_mngr_destruct m) q := by
        rintro q - ⟨f, hf, -⟩
        rw [hd.1] at hf
        exact absurd hf (List.not_mem_nil f)
      obtain ⟨r1, -⟩ := ih (address_mngr_destruct m) hfair (by rw [hd.2]; exact hlen) h1n
      refine ⟨r1, fun hadd => ?_⟩
      exact absurd (hadd manager_call.destruct (List.mem_cons_self _ _)) (by decide)

/-- C12 fails as stated: after an add on port 1107 whose allocation fails, and
after an add on port 1107 followed by the teardown, the bit of port 1107 is set
and no Endpoint in the map owns the port. -/
theorem port_marked_without_owner :
    port_in_table 1107 ∧
    port_marked (manager_run (address_mngr_init (address_manager.mk avl_tree_construct [] [] [] []))
      [manager_call.add_address_by_port 1107 "192.168.11.7".toList 5 none]) 1107 ∧
    ¬ port_owned (manager_run
      (address_mngr_init (address_manager.mk avl_tree_construct [] [] [] []))
      [manager_call.add_address_by_port 1107 "192.168.11.7".toList 5 none]) 1107 ∧
    port_marked (manager_run (address_mngr_init (address_manager.mk avl_tree_construct [] [] [] []))
      [manager_call.add_address "192.168.11.7".toList 5
          (some (soap_instance.mk "192.168.11.7".toList)),
        manager_call.destruct]) 1107 ∧
    ¬ port_owned (manager_run
      (address_mngr_init (address_manager.mk avl_tree_construct [] [] [] []))
      [manager_call.add_address "192.168.11.7".toList 5
          (some (soap_instance.mk "192.168.11.7".toList)),
        manager_call.destruct]) 1107 := by
  refine ⟨by decide, by decide, by decide, by decide, by decide⟩

/-- C12 as amended: along every sequence of adds and teardowns starting from
`address_mngr_init` in which every port asked for has a bit in the table, every
allocation succeeds and every new descriptor is not open yet, a port owned by
an Endpoint of the map has its bit set; and as long as the sequence holds no
teardown, a port's bit is set exactly when some Endpoint of the map owns it. -/
theorem port_table_invariant (m0 : address_manager) (calls : List manager_call)
    (hfair : calls_fair (address_mngr_init m0) calls) :
    (∀ q, port_in_table q → port_owned (manager_run (address_mngr_init m0) calls) q →
      port_marked (manager_run (address_mngr_init m0) calls) q) ∧
    ((∀ c ∈ calls, is_add c = true) →
      ∀ q, port_in_table q →
        (port_marked (manager_run (address_mngr_init m0) calls) q
          ↔ port_owned (manager_run (address_mngr_init m0) calls) q)) := by
  have hown : ∀ q, ¬ port_owned (address_mngr_init m0) q := by
    rintro q ⟨f, hf, -⟩
    exact absurd hf (List.not_mem_nil f)
  have hmark : ∀ q, port_in_table q → ¬ port_marked (address_mngr_init m0) q := by
    intro q hq
    obtain ⟨hq1, -, -⟩ := port_bit_in_table q hq
    unfold port_marked address_mngr_init
    rw [hq1, BITTEST_replicate_zero]
    exact fun h => h rfl
  obtain ⟨r1, r2⟩ := manager_run_invariant calls (address_mngr_init m0) hfair
    (init_table_length m0) (fun q _ ho => absurd ho (hown q))
  refine ⟨r1, fun hadd q hq => ⟨?_, r1 q hq⟩⟩
  exact r2 hadd (fun q hq hm => absurd hm (hmark q hq)) q hq

/-- C12 as amended, at two adds from the start: 192.168.11.7 on descriptor 5 and
192.168.12.7 on descriptor 6; port 1207 is marked and owned. -/
theorem port_table_invariant_witness :
    calls_fair (address_mngr_init (address_manager.mk avl_tree_construct [] [] [] []))
      [manager_call.add_address "192.168.11.7".toList 5
          (some (soap_instance.mk "192.168.11.7".toList)),
        manager_call.add_address "192.168.12.7".toList 6
          (some (soap_instance.mk "192.168.12.7".toList))] ∧
    (∀ c ∈ [manager_call.add_address "192.168.11.7".toList 5
          (some (soap_instance.mk "192.168.11.7".toList)),
        manager_call.add_address "192.168.12.7".toList 6
          (some (soap_instance.mk "192.168.12.7".toList))], is_add c = true) ∧
    port_in_table 1207 ∧
    (port_marked (manager_run
        (address_mngr_init (address_manager.mk avl_tree_construct [] [] [] []))
        [manager_call.add_address "192.168.11.7".toList 5
            (some (soap_instance.mk "192.168.11.7".toList)),
          manager_call.add_address "192.168.12.7".toList 6
            (some (soap_instance.mk "192.168.12.7".toList))]) 1207
      ↔ port_owned (manager_run
        (address_mngr_init (address_manager.mk avl_tree_construct [] [] [] []))
        [manager_call.add_address "192.168.11.7".toList 5
            (some (soap_instance.mk "192.168.11.7".toList)),
          manager_call.add_address "192.168.12.7".toList 6
            (some (soap_instance.mk "192.168.12.7".toList))]) 1207) ∧
    port_marked (manager_run
        (address_mngr_init (address_manager.mk avl_tree_construct [] [] [] []))
        [manager_call.add_address "192.168.11.7".toList 5
            (some (soap_instance.mk "192.168.11.7".toList)),
          manager_call.add_address "192.168.12.7".toList 6
            (some (soap_instance.mk "192.168.12.7".toList))]) 1207 :=
  ⟨by decide, by decide, by decide,
    (port_table_invariant (address_manager.mk avl_tree_construct [] [] [] []) _ (by decide)).2
      (by decide) 1207 (by decide),
    by decide⟩

/-! ## The drain pass -/

/-- The read loop on a queue of non-empty datagrams with no close pending: every
datagram is handled once, in order, and the loop ends on the empty queue. -/
theorem read_queue_loop_drains {σ : Type} (visca_handle_message : σ → List Nat → σ × List Nat)
    (datagrams : List (Nat × List Nat)) :
    ∀ (fuel : Nat) (state : ap_state σ), state.queue = queue_of datagrams →
      state.close_after_read = false → (∀ d ∈ datagrams, d.2 ≠ []) → datagrams.length < fuel →
      ∃ state2, read_queue_loop visca_handle_message fuel state = some state2 ∧
        state2.handled
          = state.handled ++ datagrams.map (fun d => d.2.take VOPROXYD_MAX_RX_MESSAGE_LENGTH) ∧
        state2.sent = state.sent ++ replies_due visca_handle_message state.engine datagrams ∧
        state2.queue = [] ∧ state2.closed = state.closed ∧ state2.died = state.died := by
  induction datagrams with
  | nil =>
    intro fuel state hq _ _ hfuel
    obtain ⟨n, rfl⟩ : ∃ n, fuel = n + 1 := ⟨fuel - 1, by simp at hfuel; omega⟩
    refine ⟨state, ?_, ?_, ?_, ?_, rfl, rfl⟩
    · have hq2 : state.queue = [] := hq
      simp only [read_queue_loop, epoll_handle_read_queue_udp, hq2, Bool.false_eq_true, if_false]
    · simp
    · simp [replies_due]
    · exact hq
  | cons d rest ih =>
    intro fuel state hq hc hne hfuel
    obtain ⟨n, rfl⟩ : ∃ n, fuel = n + 1 := ⟨fuel - 1, by simp at hfuel; omega⟩
    obtain ⟨addr, bytes⟩ := d
    have hq2 : state.queue = recv_item.datagram addr bytes :: queue_of rest := hq
    have hb : bytes ≠ [] := hne (addr, bytes) (List.mem_cons_self _ _)
    have hlen : (bytes.take VOPROXYD_MAX_RX_MESSAGE_LENGTH).length ≠ 0 := by
      cases bytes with
      | nil => exact absurd rfl hb
      | cons b bs => simp [VOPROXYD_MAX_RX_MESSAGE_LENGTH]
    have hstep : epoll_handle_read_queue_udp visca_handle_message state
        = (handle_udp_message visca_handle_message
            (ap_state.mk state.close_after_read addr (queue_of rest) state.engine state.handled
              state.sent state.closed state.died state.accepted)
            (bytes.take VOPROXYD_MAX_RX_MESSAGE_LENGTH), true) := by
      simp only [epoll_handle_read_queue_udp, hq2, hlen, if_false, handle_udp_message, hc,
        Bool.false_eq_true]
    obtain ⟨state2, h1, h2, h3, h4, h5, h6⟩ := ih n
      (handle_udp_message visca_handle_message
        (ap_state.mk state.close_after_read addr (queue_of rest) state.engine state.handled
          state.sent state.closed state.died state.accepted)
        (bytes.take VOPROXYD_MAX_RX_MESSAGE_LENGTH))
      rfl hc (fun x hx => hne x (List.mem_cons_of_mem _ hx))
      (by simp only [List.length_cons] at hfuel; omega)
    refine ⟨state2, ?_, ?_, ?_, h4, h5, h6⟩
    · simp only [read_queue_loop, hstep, if_true]
      exact h1
    · rw [h2]
      simp [handle_udp_message]
    · rw [h3]
      simp only [handle_udp_message, replies_due]
      split_ifs <;> simp

/-- C20 fails as stated: with an empty datagram at the head of the queue the
descriptor is closed and the pass ends with the second datagram not handled. -/
theorem empty_datagram_ends_drain_pass :
    (epoll_handle_event (fun state _ => state) (fun (s : Unit) message => (s, message)) 3
        (ap_state.mk false 0 (queue_of [(1, []), (2, [0x01, 0x02, 0x03])]) () [] [] false false 0)
        0x001 fd_type.FDT_UDP).map (fun state => (state.handled, state.closed, state.queue))
      = some ([], true, queue_of [(2, [0x01, 0x02, 0x03])]) := by
  decide

/-- C20 as amended: on readiness of a UDP descriptor with no hang-up and no
error flagged, for every finite queue of non-empty pending datagrams and with
enough fuel for one receive more than there are datagrams, the loop of
`epoll_handle_event` hands every datagram (cut to the 4096 bytes of the receive
buffer) to the engine exactly once and in arrival order, sends a reply to the
sender of exactly those datagrams for which the engine stages a non-empty
reply, and ends on the empty queue, the would-block case, with the descriptor
not closed. -/
theorem drain_pass_handles_every_datagram {σ : Type}
    (epoll_handle_event_errors : ap_state σ → Nat → ap_state σ)
    (visca_handle_message : σ → List Nat → σ × List Nat) (fuel : Nat) (state : ap_state σ)
    (events : Nat) (datagrams : List (Nat × List Nat))
    (herr : epoll_handle_event_errors state events = state)
    (hhup : events &&& EPOLLHUP = 0) (hrdhup : events &&& EPOLLRDHUP = 0)
    (hq : state.queue = queue_of datagrams) (hne : ∀ d ∈ datagrams, d.2 ≠ [])
    (hfuel : datagrams.length < fuel) :
    ∃ state2,
      epoll_handle_event epoll_handle_event_errors visca_handle_message fuel state events
        fd_type.FDT_UDP = some state2 ∧
      state2.handled
        = state.handled ++ datagrams.map (fun d => d.2.take VOPROXYD_MAX_RX_MESSAGE_LENGTH) ∧
      state2.sent = state.sent ++ replies_due visca_handle_message state.engine datagrams ∧
      state2.queue = [] ∧ state2.closed = state.closed ∧ state2.died = state.died := by
  unfold epoll_handle_event
  simp only [herr, hhup, hrdhup]
  exact read_queue_loop_drains visca_handle_message datagrams fuel _ hq rfl hne hfuel

/-- C20 as amended, at a queue of two datagrams and an engine that answers the
first with its own bytes and the second with nothing: both are handled, one
reply goes to the first sender. -/
theorem drain_pass_handles_every_datagram_witness :
    ((fun (state : ap_state Unit) (_ : Nat) => state)
        (ap_state.mk false 0 (queue_of [(1, [0x01, 0x02]), (2, [0x03])]) () [] [] false false 0)
        0x001
      = ap_state.mk false 0 (queue_of [(1, [0x01, 0x02]), (2, [0x03])]) () [] [] false false 0) ∧
    (0x001 : Nat) &&& EPOLLHUP = 0 ∧ (0x001 : Nat) &&& EPOLLRDHUP = 0 ∧
    (∀ d ∈ [((1 : Nat), [(0x01 : Nat), 0x02]), (2, [0x03])], d.2 ≠ []) ∧
    [((1 : Nat), [(0x01 : Nat), 0x02]), (2, [0x03])].length < 3 ∧
    ∃ state2,
      epoll_handle_event (fun state _ => state)
        (fun (s : Unit) message => (s, if message.length = 2 then message else [])) 3
        (ap_state.mk false 0 (queue_of [(1, [0x01, 0x02]), (2, [0x03])]) () [] [] false false 0)
        0x001 fd_type.FDT_UDP = some state2 ∧
      state2.handled = [[0x01, 0x02], [0x03]] ∧ state2.sent = [(1, [0x01, 0x02])] ∧
      state2.queue = [] ∧ state2.closed = false ∧ state2.died = false :=
  ⟨rfl, by decide, by decide, by decide, by decide,
    drain_pass_handles_every_datagram (fun state _ => state)
      (fun (s : Unit) message => (s, if message.length = 2 then message else [])) 3
      (ap_state.mk false 0 (queue_of [(1, [0x01, 0x02]), (2, [0x03])]) () [] [] false false 0)
      0x001 [(1, [0x01, 0x02]), (2, [0x03])] rfl (by decide) (by decide) rfl (by decide)
      (by decide)⟩

/-! ## Hang-up handling -/

theorem or_single_bits_ne_zero (events : Nat)
    (h : events &&& EPOLLHUP ≠ 0 ∨ events &&& EPOLLRDHUP ≠ 0) :
    (events &&& EPOLLHUP) ||| (events &&& EPOLLRDHUP) ≠ 0 := by
  have h1 : events &&& EPOLLHUP = (events.testBit 4).toNat * 2 ^ 4 := Nat.and_two_pow events 4
  have h2 : events &&& EPOLLRDHUP = (events.testBit 13).toNat * 2 ^ 13 :=
    Nat.and_two_pow events 13
  rw [h1, h2] at h ⊢
  clear h1 h2
  generalize events.testBit 4 = a at h ⊢
  generalize events.testBit 13 = b at h ⊢
  cases a <;> cases b <;> simp at h ⊢

/-- C21 fails as stated: on a hang-up event with an empty queue the descriptor
is not closed, and with two pending datagrams it is closed after the first one,
the second one left unread. -/
theorem hang_up_without_full_drain :
    (0x011 : Nat) &&& EPOLLHUP ≠ 0 ∧
    (epoll_handle_event (fun state _ => state) (fun (s : Unit) message => (s, message)) 3
        (ap_state.mk false 0 (queue_of []) () [] [] false false 0)
        0x011 fd_type.FDT_UDP).map (fun state => (state.handled, state.closed, state.queue))
      = some ([], false, []) ∧
    (epoll_handle_event (fun state _ => state) (fun (s : Unit) message => (s, message)) 3
        (ap_state.mk false 0 (queue_of [(1, [0x01, 0x02]), (2, [0x03])]) () [] [] false false 0)
        0x011 fd_type.FDT_UDP).map (fun state => (state.handled, state.closed, state.queue))
      = some ([[0x01, 0x02]], true, queue_of [(2, [0x03])]) := by
  decide

/-- C21 as amended: on a hang-up event (EPOLLHUP or EPOLLRDHUP) for a UDP
descriptor with a non-empty queue of pending datagrams, the descriptor is
closed, and it is closed right after the first pending datagram has been
received and, unless it is empty, handled, with its reply sent if one was
staged; `close_after_read` is cleared and the datagrams behind the first stay
unread. One receive is enough fuel. -/
theorem hang_up_closes_after_first_datagram {σ : Type}
    (epoll_handle_event_errors : ap_state σ → Nat → ap_state σ)
    (visca_handle_message : σ → List Nat → σ × List Nat) (fuel : Nat) (state : ap_state σ)
    (events : Nat) (d : Nat × List Nat) (rest : List (Nat × List Nat))
    (herr : epoll_handle_event_errors state events = state)
    (hhup : events &&& EPOLLHUP ≠ 0 ∨ events &&& EPOLLRDHUP ≠ 0)
    (hq : state.queue = queue_of (d :: rest)) (hfuel : 0 < fuel) :
    ∃ state2,
      epoll_handle_event epoll_handle_event_errors visca_handle_message fuel state events
        fd_type.FDT_UDP = some state2 ∧
      state2.closed = true ∧ state2.queue = queue_of rest ∧
      state2.handled
        = state.handled
          ++ (if d.2 = [] then [] else [d.2.take VOPROXYD_MAX_RX_MESSAGE_LENGTH]) ∧
      state2.sent
        = state.sent
          ++ (if d.2 = [] then []
              else replies_due visca_handle_message state.engine [d]) ∧
      state2.close_after_read = (if d.2 = [] then true else false) ∧
      state2.died = state.died := by
  obtain ⟨n, rfl⟩ : ∃ n, fuel = n + 1 := ⟨fuel - 1, by omega⟩
  obtain ⟨addr, bytes⟩ := d
  have hq2 : state.queue = recv_item.datagram addr bytes :: queue_of rest := hq
  have hflag : decide ((events &&& EPOLLHUP) ||| (events &&& EPOLLRDHUP) ≠ 0) = true :=
    decide_eq_true (or_single_bits_ne_zero events hhup)
  unfold epoll_handle_event
  simp only [herr, hflag, read_queue_loop, epoll_handle_read_queue_udp, hq2]
  by_cases hb : bytes = []
  · subst hb
    simp
  · have hlen : (bytes.take VOPROXYD_MAX_RX_MESSAGE_LENGTH).length ≠ 0 := by
      cases bytes with
      | nil => exact absurd rfl hb
      | cons b bs => simp [VOPROXYD_MAX_RX_MESSAGE_LENGTH]
    simp only [hlen, if_false, handle_udp_message, if_true, Bool.false_eq_true, hb, replies_due,
      List.append_nil]
    refine ⟨_, rfl, rfl, rfl, rfl, ?_, rfl, rfl⟩
    split_ifs <;> simp

/-- C21 as amended, at a hang-up with two pending datagrams and an engine that
answers with the bytes it got: the first datagram is handled and answered, the
descriptor is closed, the second datagram stays in the queue. -/
theorem hang_up_closes_after_first_datagram_witness :
    ((fun (state : ap_state Unit) (_ : Nat) => state)
        (ap_state.mk false 0 (queue_of [(1, [0x01, 0x02]), (2, [0x03])]) () [] [] false false 0)
        0x011
      = ap_state.mk false 0 (queue_of [(1, [0x01, 0x02]), (2, [0x03])]) () [] [] false false 0) ∧
    ((0x011 : Nat) &&& EPOLLHUP ≠ 0 ∨ (0x011 : Nat) &&& EPOLLRDHUP ≠ 0) ∧ 0 < 1 ∧
    ∃ state2,
      epoll_handle_event (fun state _ => state) (fun (s : Unit) message => (s, message)) 1
        (ap_state.mk false 0 (queue_of [(1, [0x01, 0x02]), (2, [0x03])]) () [] [] false false 0)
        0x011 fd_type.FDT_UDP = some state2 ∧
      state2.closed = true ∧ state2.queue = queue_of [(2, [0x03])] ∧
      state2.handled = [[0x01, 0x02]] ∧ state2.sent = [(1, [0x01, 0x02])] ∧
      state2.close_after_read = false ∧ state2.died = false :=
  ⟨rfl, by decide, by decide,
    hang_up_closes_after_first_datagram (fun state _ => state)
      (fun (s : Unit) message => (s, message)) 1
      (ap_state.mk false 0 (queue_of [(1, [0x01, 0x02]), (2, [0x03])]) () [] [] false false 0)
      0x011 (1, [0x01, 0x02]) [(2, [0x03])] rfl (by decide) rfl (by decide)⟩

/-! ## Payload reads -/

/-- C22, the code at a failing input: for the 8-byte control datagram
02 00 00 00 00 00 00 05 (type 0x0200, declared length 0) the payload length is
0 and `handle_control_command` reads payload index 0, whatever lies there. The
outcome is decided by the byte that follows the datagram in the receive buffer:
with 01 there a 9-byte reply is staged, with 00 there none. -/
theorem control_command_reads_behind_empty_payload (e : Endian) (n : Nat) (behind : List Nat) :
    (wire_header 0x0200 0 5).length = 8 ∧ size_sub 8 8 = 0 ∧
    0 ∈ handle_control_command_reads behind (size_sub 8 8) ∧
    ¬ (∀ i ∈ handle_control_command_reads behind (size_sub 8 8), i < size_sub 8 8) ∧
    (visca_handle_message e (staging_initial n) (wire_header 0x0200 0 5 ++ [0x01]) 8
        [] 0).response_len = 9 ∧
    (visca_handle_message e (staging_initial n) (wire_header 0x0200 0 5 ++ [0x00]) 8
        [] 0).response_len = 0 := by
  have h8 : size_sub 8 8 = 0 := by decide
  have hmem : 0 ∈ handle_control_command_reads behind (size_sub 8 8) := by
    unfold handle_control_command_reads
    split_ifs <;> simp
  refine ⟨rfl, h8, hmem, ?_, ?_, ?_⟩
  · intro hall
    have := hall 0 hmem
    omega
  · rw [visca_handle_message_wire e _ 0x0200 0 5 _ _ _ _ (by norm_num) (by norm_num)
      (by norm_num)]
    simp [h8, handle_control_command, peek, compose_control_reply_eq]
  · rw [visca_handle_message_wire e _ 0x0200 0 5 _ _ _ _ (by norm_num) (by norm_num)
      (by norm_num)]
    simp [h8, handle_control_command, peek, staging_initial]

end Voproxyd
